import Mathlib

/-!
Verification development for the ccg repository: a shallow embedding of
the game-state value type (game_state.py) and of the two Monte-Carlo
search drivers (ccg_ai.py and mcts_ai.py), with theorems settling the
frozen claims about them.

Modelling conventions:
* Python floats are modelled as exact rationals where the code only does
  field arithmetic, and as real numbers where it calls transcendental
  functions (sqrt, log, exp, non-integer powers).
* Randomness (random.random, random.choice, random.shuffle) is modelled
  by explicit oracle parameters: a shuffle oracle is a function on lists
  (hypothesised to permute its input where a theorem needs that), a
  choice oracle is a natural-number index reduced modulo the list length.
* The wall clock is modelled by an oracle giving the number of loop-top
  time checks that pass before the deadline expires.
* Python runtime errors (a call with a missing required argument,
  unpacking a scalar as a pair, random.choice on an empty sequence) are
  modelled with Except: the code paths that raise return an error value.
* The phase engine (phases.py) is out of the claims and is referenced by
  the search code only through get_legal_moves and process_action; it is
  modelled as an opaque Game interface, exactly the black-box contract
  the search code uses.
-/

/-- Python runtime errors that the modelled code paths can raise. -/
inductive PyErr where
  | typeErr (msg : String) : PyErr
  | indexErr (msg : String) : PyErr
  deriving DecidableEq, Repr

/-- Represents a single unit on the board (game_state.py, UnitState). -/
structure UnitState where
  card_id : ℤ
  current_attack : ℤ
  current_health : ℤ
  keywords : List String
  deriving DecidableEq, Repr

/-- Represents all data for one player (game_state.py, PlayerState). -/
structure PlayerState where
  health : ℤ
  resource : ℤ
  deck : List ℤ
  hand : List ℤ
  graveyard : List ℤ
  board : List UnitState
  deriving DecidableEq, Repr

/-- The complete, self-contained state of a game (game_state.py, GameState).
The two-element players list is modelled as a function from Fin 2; the
current phase object is opaque to every claim and carried as a number. -/
structure GameState where
  players : Fin 2 → PlayerState
  current_player_index : Fin 2
  turn_number : ℤ
  current_phase : ℕ

/-- GameState.get_winner_index: 0 or 1 for a winner, -1 for an ongoing
game, -2 for a draw, decided from the two health totals. -/
def GameState.get_winner_index (s : GameState) : ℤ :=
  let p1 := s.players 0
  let p2 := s.players 1
  let p1_has_lost := p1.health ≤ 0
  let p2_has_lost := p2.health ≤ 0
  if p1_has_lost ∧ p2_has_lost then -2
  else if p1_has_lost then 1
  else if p2_has_lost then 0
  else -1

/-- GameState.is_terminal: the game has a decided result. -/
def GameState.is_terminal (s : GameState) : Bool :=
  s.get_winner_index ≠ -1

/-- One weight dictionary for the heuristic evaluation: the keys read by
_calculate_single_player_score. A missing (empty) dictionary is the none
case of the `Option` at the use sites. -/
structure EvalProfile where
  health : ℚ
  board_attack : ℚ
  board_health : ℚ
  deriving DecidableEq, Repr

/-- The eval_weights dictionary passed to GameState.get_score. -/
structure EvalWeights where
  my_eval : Option EvalProfile
  opp_eval : Option EvalProfile
  symmetrical : Bool
  max_score_swing : ℚ
  deriving DecidableEq, Repr

/-- GameState._calculate_single_player_score: raw weighted sum of health
and board stats for one player; an empty weight dictionary scores 0. -/
def GameState.calculate_single_player_score (s : GameState) (player_index : Fin 2)
    (weights : Option EvalProfile) : ℚ :=
  match weights with
  | none => 0
  | some w =>
    let player := s.players player_index
    (player.health : ℚ) * w.health +
      (player.board.map (fun unit =>
        (unit.current_attack : ℚ) * w.board_attack +
          (unit.current_health : ℚ) * w.board_health)).sum

/-- Models the Python expression `winner is not None` at game_state.py
line 233: get_winner_index always returns an integer, never None, so the
test is true for every winner value. -/
def winnerIsNotNone (_winner : ℤ) : Bool := true

/-- GameState.get_score(eval_weights): terminal states score 1.0 for a
win of the current player and otherwise fall through the always-true
`winner is not None` test to -1.0; non-terminal states score a clamped,
normalized weighted feature difference. -/
def GameState.get_score (s : GameState) (eval_weights : EvalWeights) : ℚ :=
  if s.is_terminal then
    let winner := s.get_winner_index
    if winner = (s.current_player_index : ℤ) then 1
    else if winnerIsNotNone winner then -1
    else 0
  else
    let my_player_index := s.current_player_index
    let opp_player_index := 1 - my_player_index
    let my_weights := eval_weights.my_eval
    let opp_weights := if eval_weights.symmetrical then my_weights else eval_weights.opp_eval
    let my_subjective_score := s.calculate_single_player_score my_player_index my_weights
    let opp_subjective_score := s.calculate_single_player_score opp_player_index opp_weights
    let raw_score := my_subjective_score - opp_subjective_score
    let max_score_swing := eval_weights.max_score_swing
    let clamped_score := max (-max_score_swing) (min max_score_swing raw_score)
    clamped_score / max_score_swing

/-- The re-deal loop of GameState.determinize (lines 175-177): n times,
move the front card of the pool into the hand if the pool is non-empty;
returns the dealt hand and the remaining pool. -/
def redeal : ℕ → List ℤ → List ℤ × List ℤ
  | 0, pool => ([], pool)
  | _ + 1, [] => ([], [])
  | n + 1, c :: rest =>
    let hd := redeal n rest
    (c :: hd.1, hd.2)

/-- GameState.determinize(player_index): works on a copy of the state,
pools the opponent hand and deck, shuffles the pool (shuffle_pool
oracle), re-deals a hand of the original size, keeps the rest as the new
opponent deck, and shuffles the viewing player deck (shuffle_deck
oracle). All other components are carried over unchanged. -/
def GameState.determinize (s : GameState) (player_index : Fin 2)
    (shuffle_pool shuffle_deck : List ℤ → List ℤ) : GameState :=
  let p_self := s.players player_index
  let p_opp := s.players (1 - player_index)
  let opponent_hand_pool := shuffle_pool (p_opp.hand ++ p_opp.deck)
  let opponent_hand_size := (s.players (1 - player_index)).hand.length
  let dealt := redeal opponent_hand_size opponent_hand_pool
  { s with
    players := fun i =>
      if i = 1 - player_index then
        { p_opp with hand := dealt.1, deck := dealt.2 }
      else
        { p_self with deck := shuffle_deck p_self.deck } }

/-- The opaque contract through which both search drivers talk to the
game rules: legal-move enumeration and action application, dispatched in
the source through the state held phase object (phases.py). -/
structure Game (Move : Type) where
  legalMoves : GameState → List Move
  processAction : GameState → Move → GameState

/-- Models random.choice on a list known at the call site to be
non-empty: the oracle index is reduced modulo the length. -/
def pyChoice (a : α) (rest : List α) (i : ℕ) : α :=
  (a :: rest).getD (i % (rest.length + 1)) a

/-- Models random.choice through an Option: some element for a non-empty
list, none for the empty list (where Python would raise IndexError). -/
def pyChoiceL (l : List α) (i : ℕ) : Option α :=
  l.get? (i % l.length)

/-- Models the Python builtin max(iterable, key=f): the first element
attaining the maximal key, none on an empty iterable. -/
def pyMaxKey (l : List α) (f : α → ℚ) : Option α :=
  l.foldl (fun acc x =>
    match acc with
    | none => some x
    | some b => if f b < f x then some x else some b) none

/-- Per-move entry of the master statistics dictionary in
CCG_AI.find_best_move. -/
structure MoveStats where
  visits : ℕ
  total_reward : ℝ
  total_squared_reward : ℝ

namespace CCG_AI

/-- CCG_AI.normalize_score_diff: clamp the score difference to the
configured swing, shift and rescale into the unit interval. -/
def normalize_score_diff (max_score_swing my_score opp_score : ℚ) : ℚ :=
  let score_difference := my_score - opp_score
  let clamped_diff := max (-max_score_swing) (min max_score_swing score_difference)
  let shifted_diff := clamped_diff + max_score_swing
  shifted_diff / (2 * max_score_swing)

/-- The certainty adjustment of ccg_ai.py lines 238-239:
copysign(abs(reward - 0.5) ** certainty_exp, reward - 0.5) + 0.5. -/
noncomputable def adjustReward (reward : ℝ) (certainty_exp : ℝ) : ℝ :=
  let reward_from_center := reward - 1 / 2
  (if reward_from_center < 0 then -(|reward_from_center| ^ certainty_exp)
   else |reward_from_center| ^ certainty_exp) + 1 / 2

/-- Python max over a non-empty float list (the max_scaled_visit step of
choose_final_move). -/
def pyListMax (l : List ℝ) : ℝ :=
  l.foldl max (l.headD 0)

/-- CCG_AI.choose_final_move (the second, overriding definition, lines
126-166): greedy pick of the most visited move below temperature 0.01,
otherwise softmax sampling over temperature-scaled visit counts via the
sampler oracle standing for random.choices. -/
noncomputable def choose_final_move (move_stats : List (Move × MoveStats))
    (temperature : ℚ) (sampler : List ℝ → ℕ) : Option Move :=
  if move_stats.isEmpty then none
  else if temperature < 1 / 100 then
    (pyMaxKey move_stats fun p => (p.2.visits : ℚ)).map Prod.fst
  else
    let moves := move_stats.map Prod.fst
    let visits := move_stats.map fun p => ((p.2.visits : ℝ))
    let scaled_visits := visits.map fun v => v / (temperature : ℝ)
    let max_scaled_visit := pyListMax scaled_visits
    let exp_visits := scaled_visits.map fun v => Real.exp (v - max_scaled_visit)
    let total_exp_visits := exp_visits.sum
    let probabilities := exp_visits.map fun ev => ev / total_exp_visits
    moves.get? (sampler probabilities)

/-- CCG_AI.run_recon_playout: up to depth_limit random steps from a copy
of the start state, stopping at a terminal state or an empty move list.
The pick oracle is indexed by the remaining depth. -/
def run_recon_playout (g : Game Move) (pick : ℕ → ℕ) :
    ℕ → GameState → GameState
  | 0, current_state => current_state
  | depth + 1, current_state =>
    if current_state.is_terminal then current_state
    else
      match g.legalMoves current_state with
      | [] => current_state
      | m :: rest =>
        run_recon_playout g pick depth
          (g.processAction current_state (pyChoice m rest (pick depth)))

/-- The UCB-Tuned score of one master entry (ccg_ai.py lines 214-221):
infinite for an unvisited move, otherwise average reward plus a
variance-capped exploration bonus. -/
noncomputable def ucbScore (exploration_constant : ℝ) (total_evaluation_count : ℕ)
    (stats : MoveStats) : EReal :=
  if stats.visits = 0 then ⊤
  else
    let avg_reward := stats.total_reward / (stats.visits : ℝ)
    let avg_squared_reward := stats.total_squared_reward / (stats.visits : ℝ)
    let variance := max 0 (avg_squared_reward - avg_reward ^ 2)
    let exploration_bonus :=
      Real.sqrt ((Real.log ((total_evaluation_count : ℝ) + 1) / (stats.visits : ℝ)) *
        min 0.25 variance)
    ((avg_reward + exploration_constant * exploration_bonus : ℝ) : EReal)

/-- One step of the probe-selection scan of ccg_ai.py lines 213-225:
keep the incumbent unless the scanned entry scores strictly higher. -/
noncomputable def selectStep (exploration_constant : ℝ) (total_evaluation_count : ℕ)
    (acc : Option Move × EReal) (p : Move × MoveStats) : Option Move × EReal :=
  let score := ucbScore exploration_constant total_evaluation_count p.2
  if acc.2 < score then (some p.1, score) else acc

/-- The probe-selection scan of ccg_ai.py lines 210-225: fold over the
master entries keeping the first entry of strictly maximal UCB score,
starting from score minus infinity and no move. -/
noncomputable def selectBestMove (exploration_constant : ℝ) (total_evaluation_count : ℕ)
    (master : List (Move × MoveStats)) : Option Move :=
  (master.foldl (selectStep exploration_constant total_evaluation_count)
    ((none : Option Move), (⊥ : EReal))).1

/-- The TypeError Python raises for a call of GameState.get_score with
the required eval_weights argument missing. -/
def scoreArityErr : PyErr :=
  .typeErr "get_score missing 1 required positional argument: eval_weights"

/-- Calling GameState.get_score with an explicit positional argument
list, resolved the way Python resolves arity: the signature
get_score(self, eval_weights) has one required parameter, so a call with
no argument raises TypeError before the body runs. -/
def callGetScore (s : GameState) (args : List EvalWeights) : Except PyErr ℚ :=
  match args with
  | [eval_weights] => .ok (s.get_score eval_weights)
  | [] => .error scoreArityErr
  | _ => .error (.typeErr "get_score takes 2 positional arguments but more were given")

/-- Python tuple unpacking `p0_score, p1_score = v` applied to a float
value v: a float is not iterable, so the unpacking raises TypeError. -/
def unpackFloatPair (_v : ℚ) : Except PyErr (ℚ × ℚ) :=
  .error (.typeErr "cannot unpack non-iterable float object")

/-- The evaluation step of one probe, exactly as written at ccg_ai.py
line 231: `p0_score, p1_score = final_recon_state.get_score()` — a call
of get_score with no eval_weights argument whose result is unpacked as a
pair. -/
def ccgEvalStep (final_recon_state : GameState) : Except PyErr (ℚ × ℚ) :=
  match callGetScore final_recon_state [] with
  | .error e => .error e
  | .ok v => unpackFloatPair v

end CCG_AI

/-- The configuration options of CCG_AI read by find_best_move. The
evaluation limit is none for the infinite default. -/
structure CCGOptions where
  max_score_swing : ℚ
  evaluation_limit : Option ℕ
  temperature : ℚ
  exploration_weight : ℝ
  blunder_chance : ℚ
  recon_depth : ℕ
  probes_per_world : ℕ
  certainty_exponent : ℝ

/-- The break test `total_evaluation_count >= evaluation_limit` with the
infinite (none) sentinel never reached. -/
def evalLimitReached (limit : Option ℕ) (count : ℕ) : Bool :=
  match limit with
  | none => false
  | some k => k ≤ count

/-- The randomness and wall-clock oracles consumed by one call of
CCG_AI.find_best_move. timeIters is the number of loop-top clock checks
that pass before the time budget expires. -/
structure CCGOracles (Move : Type) where
  blunderRoll : ℚ
  blunderIdx : ℕ
  fallbackIdx : ℕ
  timeIters : ℕ
  shufflePool : ℕ → List ℤ → List ℤ
  shuffleDeck : ℕ → List ℤ → List ℤ
  reconPick : ℕ → ℕ → ℕ
  sampler : List ℝ → ℕ

/-- Updates the first entry of an association list at the given key. -/
def assocUpdate [DecidableEq κ] (l : List (κ × β)) (k : κ) (f : β → β) : List (κ × β) :=
  match l with
  | [] => []
  | (k0, v) :: rest => if k0 = k then (k0, f v) :: rest else (k0, v) :: assocUpdate rest k f

namespace CCG_AI

/-- The empty master statistics dictionary of ccg_ai.py lines 189-192. -/
def initMaster (legal_moves : List Move) : List (Move × MoveStats) :=
  legal_moves.map fun move => (move, { visits := 0, total_reward := 0, total_squared_reward := 0 })

/-- The statistics update of ccg_ai.py lines 243-246 on the probed move. -/
def updateStats [DecidableEq Move] (master : List (Move × MoveStats)) (move : Move)
    (reward : ℝ) : List (Move × MoveStats) :=
  assocUpdate master move fun stats =>
    { stats with
      visits := stats.visits + 1
      total_reward := stats.total_reward + reward
      total_squared_reward := stats.total_squared_reward + reward ^ 2 }

/-- The main search loop of CCG_AI.find_best_move (lines 200-247),
recursing on the number of loop-top clock checks the wall-clock oracle
lets pass. Each iteration checks the budgets, refreshes the
determinized world every probes_per_world probes, selects a move by
UCB-Tuned over the master statistics, probes it with a recon playout and
the line-231 evaluation step, and on success accumulates the reward. -/
noncomputable def ccgSearchLoop (g : Game Move) [DecidableEq Move] (opts : CCGOptions)
    (o : CCGOracles Move) (initial_state : GameState) :
    ℕ → ℕ → List (Move × MoveStats) → Option GameState →
    Except PyErr (List (Move × MoveStats) × ℕ)
  | 0, total_evaluation_count, master, _ => .ok (master, total_evaluation_count)
  | time_fuel + 1, total_evaluation_count, master, current_determinized_state =>
    if evalLimitReached opts.evaluation_limit total_evaluation_count then
      .ok (master, total_evaluation_count)
    else
      let world :=
        if total_evaluation_count % opts.probes_per_world = 0 then
          some (initial_state.determinize initial_state.current_player_index
            (o.shufflePool total_evaluation_count) (o.shuffleDeck total_evaluation_count))
        else current_determinized_state
      match selectBestMove opts.exploration_weight total_evaluation_count master with
      | none => .error (.typeErr "NoneType passed to process_action")
      | some best_move_to_probe =>
        match world with
        | none => .error (.typeErr "NoneType has no attribute process_action")
        | some w =>
          let state_after_move := g.processAction w best_move_to_probe
          let final_recon_state :=
            run_recon_playout g (o.reconPick total_evaluation_count) opts.recon_depth
              state_after_move
          match ccgEvalStep final_recon_state with
          | .error e => .error e
          | .ok scores =>
            let sc := if initial_state.current_player_index = 0 then scores
              else (scores.2, scores.1)
            let reward0 := normalize_score_diff opts.max_score_swing sc.1 sc.2
            let reward : ℝ :=
              if opts.certainty_exponent ≠ 1 then
                adjustReward (reward0 : ℝ) opts.certainty_exponent
              else (reward0 : ℝ)
            ccgSearchLoop g opts o initial_state time_fuel (total_evaluation_count + 1)
              (updateStats master best_move_to_probe reward) world

/-- CCG_AI.find_best_move (lines 168-257): the zero-move, one-move and
blunder short circuits, then the probe loop over master statistics, the
zero-evaluation random fallback and the temperature-controlled final
selection. -/
noncomputable def find_best_move (g : Game Move) [DecidableEq Move] (opts : CCGOptions)
    (o : CCGOracles Move) (initial_state : GameState) : Except PyErr (Option Move × ℕ) :=
  let legal_moves := g.legalMoves initial_state
  if legal_moves.isEmpty then .ok (none, 0)
  else if legal_moves.length = 1 then .ok (legal_moves.head?, 1)
  else if o.blunderRoll < opts.blunder_chance then .ok (pyChoiceL legal_moves o.blunderIdx, 0)
  else
    match ccgSearchLoop g opts o initial_state o.timeIters 0 (initMaster legal_moves) none with
    | .error e => .error e
    | .ok (master, total_evaluation_count) =>
      if total_evaluation_count = 0 then .ok (pyChoiceL legal_moves o.fallbackIdx, 0)
      else .ok (choose_final_move master opts.temperature o.sampler, total_evaluation_count)

/-- Modelled from the spec for comparison with find_best_move (claim C3
names the order of the blunder check): identical to the source function
except that the blunder check is applied once, after the search loop has
completed, overriding the computed best move while keeping the
evaluation count of the completed search. -/
noncomputable def find_best_move_blunder_after (g : Game Move) [DecidableEq Move]
    (opts : CCGOptions) (o : CCGOracles Move) (initial_state : GameState) :
    Except PyErr (Option Move × ℕ) :=
  let legal_moves := g.legalMoves initial_state
  if legal_moves.isEmpty then .ok (none, 0)
  else if legal_moves.length = 1 then .ok (legal_moves.head?, 1)
  else
    match ccgSearchLoop g opts o initial_state o.timeIters 0 (initMaster legal_moves) none with
    | .error e => .error e
    | .ok (master, total_evaluation_count) =>
      if total_evaluation_count = 0 then .ok (pyChoiceL legal_moves o.fallbackIdx, 0)
      else if o.blunderRoll < opts.blunder_chance then
        .ok (pyChoiceL legal_moves o.blunderIdx, total_evaluation_count)
      else .ok (choose_final_move master opts.temperature o.sampler, total_evaluation_count)

end CCG_AI

/-- mcts_ai.py module constant. -/
def RAVE_EQUIVALENCE : ℕ := 350

/-- mcts_ai.py module constant: fixed playout count per determinized
world. -/
def SOLVER_ITERATIONS : ℕ := 10

namespace MCTS_AI

/-- The MCTS search tree: one node wraps a game state, its standard
statistics, the parent-held RAVE dictionaries for its children, the
untried actions left to expand and the expanded children labelled by
the action that produced them (mcts_ai.py, MCTSNode). -/
inductive MTree (Move : Type) where
  | node (game_state : GameState) (wins : ℚ) (visits : ℕ)
      (rave_wins : List (Move × ℚ)) (rave_visits : List (Move × ℕ))
      (untried_actions : List Move) (children : List (Move × MTree Move)) : MTree Move

/-- The wrapped game state of a tree node. -/
def MTree.game_state : MTree Move → GameState
  | .node st _ _ _ _ _ _ => st

/-- The accumulated reward of a tree node. -/
def MTree.wins : MTree Move → ℚ
  | .node _ w _ _ _ _ _ => w

/-- The visit count of a tree node. -/
def MTree.visits : MTree Move → ℕ
  | .node _ _ v _ _ _ _ => v

/-- The RAVE reward dictionary a node holds for its children. -/
def MTree.rave_wins : MTree Move → List (Move × ℚ)
  | .node _ _ _ rw _ _ _ => rw

/-- The RAVE visit dictionary a node holds for its children. -/
def MTree.rave_visits : MTree Move → List (Move × ℕ)
  | .node _ _ _ _ rv _ _ => rv

/-- The untried actions of a tree node. -/
def MTree.untried_actions : MTree Move → List Move
  | .node _ _ _ _ _ un _ => un

/-- The expanded children of a tree node. -/
def MTree.children : MTree Move → List (Move × MTree Move)
  | .node _ _ _ _ _ _ ch => ch

/-- MCTSNode.__init__: zero statistics, empty RAVE dictionaries, no
children, and the untried actions set to the legal moves of the state,
shuffled by the ushuf oracle standing for random.shuffle. -/
def mkNode (g : Game Move) (ushuf : GameState → List Move → List Move)
    (game_state : GameState) : MTree Move :=
  .node game_state 0 0 [] [] (ushuf game_state (g.legalMoves game_state)) []

/-- The bounded random playout of MCTS_AI.simulate, with the remaining
fuel of the 40-iteration loop and the running step index for the pick
oracle; collects the set of actions simulated. -/
def simulateLoop (g : Game Move) [DecidableEq Move] (pick : ℕ → ℕ) :
    ℕ → ℕ → GameState → List Move → GameState × List Move
  | 0, _, sim_state, moves_in_sim => (sim_state, moves_in_sim)
  | fuel + 1, step, sim_state, moves_in_sim =>
    if sim_state.get_winner_index ≠ -1 then (sim_state, moves_in_sim)
    else
      match g.legalMoves sim_state with
      | [] => (sim_state, moves_in_sim)
      | m :: rest =>
        let action := pyChoice m rest (pick step)
        simulateLoop g pick fuel (step + 1) (g.processAction sim_state action)
          (moves_in_sim.insert action)

/-- MCTS_AI.simulate: a random playout of at most 40 steps from a copy
of the given state, returning the final state and the set of actions
taken. -/
def simulate (g : Game Move) [DecidableEq Move] (pick : ℕ → ℕ)
    (state_to_sim_from : GameState) : GameState × List Move :=
  simulateLoop g pick 40 0 state_to_sim_from []

/-- The reward determination of MCTS_AI.backpropagate (lines 214-228):
from the perspective of the search player, 1 for a win, 0.5 for a draw,
a health-comparison heuristic for an unfinished simulation, 0 (the
initial value) when the other player won. -/
def rewardForSearchPlayer (final_sim_state : GameState)
    (search_player_index : Fin 2) : ℚ :=
  let winner_idx := final_sim_state.get_winner_index
  if winner_idx = ((search_player_index : ℕ) : ℤ) then 1
  else if winner_idx = -2 then 1 / 2
  else if winner_idx = -1 then
    let p_search_health := (final_sim_state.players search_player_index).health
    let p_other_health := (final_sim_state.players (1 - search_player_index)).health
    if p_search_health > p_other_health then 1
    else if p_search_health < p_other_health then 0
    else 1 / 2
  else 0

/-- The guarded RAVE update of mcts_ai.py lines 249-251 for one move:
only a move already present as a key of the rave_visits dictionary has
its visit and reward entries bumped. -/
def raveUpdate [DecidableEq Move] (rave_visits : List (Move × ℕ))
    (rave_wins : List (Move × ℚ)) (move : Move) (current_reward : ℚ) :
    List (Move × ℕ) × List (Move × ℚ) :=
  if ((rave_visits.lookup move).isSome : Bool) then
    (assocUpdate rave_visits move (· + 1), assocUpdate rave_wins move (· + current_reward))
  else (rave_visits, rave_wins)

/-- A node of the backpropagation path of MCTS_AI.backpropagate: the
fields of an MCTSNode that the function reads and writes, detached from
the parent links it walks. -/
structure BPNode (Move : Type) where
  game_state : GameState
  wins : ℚ
  visits : ℕ
  rave_wins : List (Move × ℚ)
  rave_visits : List (Move × ℕ)

/-- The per-node body of the backpropagation loop (mcts_ai.py lines
236-255): flip the reward to the mover at the node, run the guarded
RAVE updates for every move of the playout, then bump the standard
statistics. -/
def bpUpdateNode [DecidableEq Move] (search_player_index : Fin 2)
    (reward_for_search_player : ℚ) (all_moves_made_in_playout : List Move)
    (node : BPNode Move) : BPNode Move :=
  let player_at_node := node.game_state.current_player_index
  let current_reward :=
    if player_at_node = search_player_index then reward_for_search_player
    else 1 - reward_for_search_player
  let updated := all_moves_made_in_playout.foldl
    (fun acc move => raveUpdate acc.1 acc.2 move current_reward)
    (node.rave_visits, node.rave_wins)
  { node with
    rave_visits := updated.1
    rave_wins := updated.2
    visits := node.visits + 1
    wins := node.wins + current_reward }

/-- MCTS_AI.backpropagate: updates every node of the walked path (given
leaf first, root last, as the parent links visit them) with the
playout reward and the RAVE credit of every move of the selection path
and the simulation. -/
def backpropagate [DecidableEq Move] (final_sim_state : GameState)
    (search_player_index : Fin 2) (moves_in_tree moves_in_sim : List Move)
    (path : List (BPNode Move)) : List (BPNode Move) :=
  let reward_for_search_player :=
    rewardForSearchPlayer final_sim_state search_player_index
  let all_moves_made_in_playout := (moves_in_tree ++ moves_in_sim).dedup
  path.map
    (bpUpdateNode search_player_index reward_for_search_player all_moves_made_in_playout)

/-- The same per-node update applied in place to a tree node, used by
the functional rendering of one playout. -/
def MTree.bpUpdate [DecidableEq Move] (search_player_index : Fin 2)
    (reward_for_search_player : ℚ) (all_moves_made_in_playout : List Move) :
    MTree Move → MTree Move
  | .node st w v rw rv un ch =>
    let current_reward :=
      if st.current_player_index = search_player_index then reward_for_search_player
      else 1 - reward_for_search_player
    let updated := all_moves_made_in_playout.foldl
      (fun acc move => raveUpdate acc.1 acc.2 move current_reward) (rv, rw)
    .node st (w + current_reward) (v + 1) updated.2 updated.1 un ch

/-- The RAVE and UCT blended score of one child in MCTSNode.best_child
(lines 65-79), for a child with a non-zero visit count. -/
noncomputable def childScore [DecidableEq Move] (exploration_weight : ℝ)
    (parent_visits : ℕ) (rave_wins : List (Move × ℚ)) (rave_visits : List (Move × ℕ))
    (child : Move × MTree Move) : ℝ :=
  let rave_score :=
    (((rave_wins.lookup child.1).getD 0 : ℚ) : ℝ) / (((rave_visits.lookup child.1).getD 1 : ℕ) : ℝ)
  let mcts_score := ((child.2.wins : ℚ) : ℝ) / (child.2.visits : ℝ)
  let beta := Real.sqrt ((RAVE_EQUIVALENCE : ℝ) / (3 * (parent_visits : ℝ) + (RAVE_EQUIVALENCE : ℝ)))
  let combined_score := (1 - beta) * mcts_score + beta * rave_score
  let explore_score :=
    exploration_weight * Real.sqrt (Real.log (parent_visits : ℝ) / (child.2.visits : ℝ))
  combined_score + explore_score

/-- MCTSNode.best_child, returning the position of the chosen child: an
unvisited child is returned at once; otherwise the children of strictly
maximal blended score are collected (starting from score -1) and one is
picked by the tie oracle standing for random.choice, none when that
collection is empty. -/
noncomputable def best_child [DecidableEq Move] (exploration_weight : ℝ) (tie_pick : ℕ)
    (parent_visits : ℕ) (rave_wins : List (Move × ℚ)) (rave_visits : List (Move × ℕ))
    (children : List (Move × MTree Move)) : Option ℕ :=
  match children.findIdx? (fun child => child.2.visits == 0) with
  | some i => some i
  | none =>
    let scored := children.enum.map
      (fun p => (p.1, childScore exploration_weight parent_visits rave_wins rave_visits p.2))
    let folded := scored.foldl
      (fun acc p =>
        if acc.1 < p.2 then (p.2, [p.1])
        else if p.2 = acc.1 then (acc.1, acc.2 ++ [p.1])
        else acc)
      ((-1 : ℝ), ([] : List ℕ))
    folded.2.get? (tie_pick % folded.2.length)

/-- The per-playout randomness: the random.choice tie breaks of
best_child indexed by tree depth, and the simulation picks indexed by
step. -/
structure PlayoutRands where
  tiePick : ℕ → ℕ
  simPick : ℕ → ℕ

/-- The result of one playout on a subtree: the updated subtree, the
actions of the selection path inside the subtree, the actions of the
simulation, and the final simulated state. -/
structure ProbeOut (Move : Type) where
  tree : MTree Move
  moves_below : List Move
  moves_in_sim : List Move
  final_sim_state : GameState

/-- One playout of the inner solver loop (mcts_ai.py lines 130-153):
walk down from the given subtree root selecting best children, expand
one untried action (popped from the shuffled list) when available, stop
at a terminal node, simulate, and apply the backpropagation update to
every node of the walked path on the way back up. moves_above holds the
selection-path actions taken above this subtree, so that every node
updates its RAVE dictionaries with the full playout move set, as the
imperative backpropagate does. -/
noncomputable def probe (g : Game Move) [DecidableEq Move]
    (ushuf : GameState → List Move → List Move) (rands : PlayoutRands)
    (search_player_index : Fin 2) :
    ℕ → List Move → MTree Move → Except PyErr (ProbeOut Move)
  | depth, moves_above, .node st w v rw rv un ch =>
    if st.is_terminal then
      let sim := simulate g rands.simPick st
      let r := rewardForSearchPlayer sim.1 search_player_index
      let all_moves := (moves_above ++ sim.2).dedup
      .ok
        { tree := MTree.bpUpdate search_player_index r all_moves (.node st w v rw rv un ch)
          moves_below := []
          moves_in_sim := sim.2
          final_sim_state := sim.1 }
    else
      match un.getLast? with
      | some action =>
        let next_state := g.processAction st action
        let child := mkNode g ushuf next_state
        let sim := simulate g rands.simPick next_state
        let r := rewardForSearchPlayer sim.1 search_player_index
        let all_moves := (moves_above ++ [action] ++ sim.2).dedup
        let child1 := MTree.bpUpdate search_player_index r all_moves child
        .ok
          { tree := MTree.bpUpdate search_player_index r all_moves
              (.node st w v rw rv un.dropLast (ch ++ [(action, child1)]))
            moves_below := [action]
            moves_in_sim := sim.2
            final_sim_state := sim.1 }
      | none =>
        match best_child (141 / 100 : ℝ) (rands.tiePick depth) v rw rv ch with
        | none => .error (.indexErr "random.choice on empty best children")
        | some i =>
          match hch : ch.get? i with
          | none => .error (.indexErr "random.choice on empty best children")
          | some pair =>
            match probe g ushuf rands search_player_index (depth + 1)
                (moves_above ++ [pair.1]) pair.2 with
            | .error e => .error e
            | .ok out =>
              let r := rewardForSearchPlayer out.final_sim_state search_player_index
              let all_moves :=
                (moves_above ++ (pair.1 :: out.moves_below) ++ out.moves_in_sim).dedup
              .ok
                { tree := MTree.bpUpdate search_player_index r all_moves
                    (.node st w v rw rv un (ch.set i (pair.1, out.tree)))
                  moves_below := pair.1 :: out.moves_below
                  moves_in_sim := out.moves_in_sim
                  final_sim_state := out.final_sim_state }
termination_by _d _m t => sizeOf t
decreasing_by
  have hmem : pair ∈ ch := List.get?_mem hch
  have h1 := List.sizeOf_lt_of_mem hmem
  cases pair
  simp only [Prod.mk.sizeOf_spec] at h1
  simp only [MTree.node.sizeOf_spec]
  omega

/-- Per-move entry of the master statistics dictionary in
MCTS_AI.find_best_move. -/
structure MStats where
  wins : ℚ
  visits : ℕ
  deriving DecidableEq, Repr

/-- The aggregation step of mcts_ai.py lines 156-160: fold the solver
root children into the master dictionary, adding visits and wins for
every child whose move is a master key. -/
def aggregate [DecidableEq Move] (master : List (Move × MStats))
    (children : List (Move × MTree Move)) : List (Move × MStats) :=
  children.foldl
    (fun m child =>
      if ((m.lookup child.1).isSome : Bool) then
        assocUpdate m child.1 fun st =>
          { wins := st.wins + child.2.wins, visits := st.visits + child.2.visits }
      else m)
    master

/-- The randomness and wall-clock oracles consumed by one call of
MCTS_AI.find_best_move. numWorlds is the number of outer loop-top clock
checks that pass before the time budget expires; ushuf stands for the
random.shuffle of untried actions at node creation; rands gives the
per-playout randomness by world and iteration index. -/
structure MCTSOracles (Move : Type) where
  numWorlds : ℕ
  shufflePool : ℕ → List ℤ → List ℤ
  shuffleDeck : ℕ → List ℤ → List ℤ
  ushuf : GameState → List Move → List Move
  rands : ℕ → ℕ → PlayoutRands
  fallbackIdx : ℕ

/-- The inner solver loop of MCTS_AI.find_best_move (lines 123-153):
the fixed number of playouts on one determinized world, bumping the
total playout counter at the top of each iteration. -/
noncomputable def solverLoop (g : Game Move) [DecidableEq Move] (o : MCTSOracles Move)
    (search_player_index : Fin 2) (world_idx : ℕ) :
    ℕ → MTree Move → ℕ → Except PyErr (MTree Move × ℕ)
  | 0, solver_root, total_playout_count => .ok (solver_root, total_playout_count)
  | iters + 1, solver_root, total_playout_count =>
    let total1 := total_playout_count + 1
    match probe g o.ushuf (o.rands world_idx iters) search_player_index 0 [] solver_root with
    | .error e => .error e
    | .ok out => solverLoop g o search_player_index world_idx iters out.tree total1

/-- The outer determinization loop of MCTS_AI.find_best_move (lines
114-160): for each world allowed by the clock, determinize, run the
solver on a fresh root, and aggregate the root children into the master
dictionary. -/
noncomputable def worldLoop (g : Game Move) [DecidableEq Move] (o : MCTSOracles Move)
    (initial_state : GameState) :
    ℕ → ℕ → List (Move × MStats) → ℕ → Except PyErr (List (Move × MStats) × ℕ)
  | 0, _, master, total_playout_count => .ok (master, total_playout_count)
  | worlds_remaining + 1, world_idx, master, total_playout_count =>
    let determinate_state := initial_state.determinize initial_state.current_player_index
      (o.shufflePool world_idx) (o.shuffleDeck world_idx)
    let solver_root := mkNode g o.ushuf determinate_state
    match solverLoop g o initial_state.current_player_index world_idx SOLVER_ITERATIONS
        solver_root total_playout_count with
    | .error e => .error e
    | .ok (root1, total1) =>
      worldLoop g o initial_state worlds_remaining (world_idx + 1)
        (aggregate master root1.children) total1

/-- MCTS_AI.find_best_move (lines 94-171): the zero-move and one-move
short circuits, the determinization loop, the zero-playout random
fallback, and the final greedy pick of the most visited master move. -/
noncomputable def find_best_move (g : Game Move) [DecidableEq Move] (o : MCTSOracles Move)
    (initial_state : GameState) : Except PyErr (Option Move × ℕ) :=
  let real_legal_moves := g.legalMoves initial_state
  if real_legal_moves.isEmpty then .ok (none, 0)
  else if real_legal_moves.length = 1 then .ok (real_legal_moves.head?, 1)
  else
    let master := real_legal_moves.map fun move => (move, ({ wins := 0, visits := 0 } : MStats))
    match worldLoop g o initial_state o.numWorlds 0 master 0 with
    | .error e => .error e
    | .ok (master1, total_playout_count) =>
      if total_playout_count = 0 then .ok (pyChoiceL real_legal_moves o.fallbackIdx, 0)
      else
        .ok ((pyMaxKey master1 fun p => (p.2.visits : ℚ)).map Prod.fst, total_playout_count)

/-- The moves labelling the children of a tree node. -/
def rootChildMoves (t : MTree Move) : List Move :=
  t.children.map Prod.fst

/-- The total visit count over the children of a tree node. -/
def rootChildVisitSum (t : MTree Move) : ℕ :=
  (t.children.map fun c => c.2.visits).sum

/-- The total visit count over a master statistics dictionary of the
determinization driver. -/
def masterVisitSum (master : List (Move × MStats)) : ℕ :=
  (master.map fun p => p.2.visits).sum

end MCTS_AI

namespace CCG_AI

/-- The total visit count over a master statistics dictionary of the
probe driver. -/
def masterVisitSum (master : List (Move × MoveStats)) : ℕ :=
  (master.map fun p => p.2.visits).sum

end CCG_AI

/-! Concrete fixtures used by the witness and counterexample theorems. -/

/-- A live example player. -/
def exPlayer : PlayerState :=
  { health := 20, resource := 3, deck := [1, 2, 3], hand := [4, 5], graveyard := [6],
    board := [{ card_id := 7, current_attack := 2, current_health := 2, keywords := [] }] }

/-- An example player at zero health. -/
def exPlayerDead : PlayerState :=
  { exPlayer with health := 0 }

/-- A live example state with player 0 to act. -/
def exState : GameState :=
  { players := fun _ => exPlayer, current_player_index := 0, turn_number := 1,
    current_phase := 0 }

/-- The example state with player 1 to act. -/
def exStateP1 : GameState :=
  { exState with current_player_index := 1 }

/-- An example terminal state won by player 0. -/
def exWinState : GameState :=
  { exState with players := fun i => if i = 0 then exPlayer else exPlayerDead }

/-- An example terminal drawn state: both players at zero health. -/
def exDrawState : GameState :=
  { exState with players := fun _ => exPlayerDead }

/-- An example game interface with no legal move anywhere. -/
def exGame0 : Game ℕ :=
  { legalMoves := fun _ => [], processAction := fun s _ => s }

/-- An example game interface with exactly one legal move everywhere. -/
def exGame1 : Game ℕ :=
  { legalMoves := fun _ => [7], processAction := fun s _ => s }

/-- An example game interface with two legal moves everywhere. -/
def exGame2 : Game ℕ :=
  { legalMoves := fun _ => [0, 1], processAction := fun s _ => s }

/-- Default-like example options: no blunder, infinite evaluation
budget. -/
noncomputable def exOptions : CCGOptions :=
  { max_score_swing := 100, evaluation_limit := none, temperature := 1,
    exploration_weight := 141 / 100, blunder_chance := 0, recon_depth := 10,
    probes_per_world := 10, certainty_exponent := 1 }

/-- Example options with a certain blunder. -/
noncomputable def exOptionsBlunder : CCGOptions :=
  { exOptions with blunder_chance := 1 }

/-- Example oracles for the probe driver: one loop iteration allowed by
the clock, identity shuffles, zero picks. -/
def exOracles : CCGOracles ℕ :=
  { blunderRoll := 0, blunderIdx := 0, fallbackIdx := 0, timeIters := 1,
    shufflePool := fun _ l => l, shuffleDeck := fun _ l => l,
    reconPick := fun _ _ => 0, sampler := fun _ => 0 }

/-- Example oracles for the determinization driver: the clock expires
before the first world. -/
def exMCTSOracles : MCTS_AI.MCTSOracles ℕ :=
  { numWorlds := 0, shufflePool := fun _ l => l, shuffleDeck := fun _ l => l,
    ushuf := fun _ l => l,
    rands := fun _ _ => { tiePick := fun _ => 0, simPick := fun _ => 0 },
    fallbackIdx := 0 }

/-- An example backpropagation path node where player 0 is to act. -/
def exBPNode0 : MCTS_AI.BPNode ℕ :=
  { game_state := exState, wins := 2, visits := 5, rave_wins := [], rave_visits := [] }

/-- An example backpropagation path node where player 1 is to act. -/
def exBPNode1 : MCTS_AI.BPNode ℕ :=
  { game_state := exStateP1, wins := 1, visits := 4, rave_wins := [], rave_visits := [] }

/-- An example eval_weights dictionary. -/
def exEvalWeights : EvalWeights :=
  { my_eval := some { health := 1, board_attack := 2, board_health := 1 },
    opp_eval := some { health := 1, board_attack := 2, board_health := 1 },
    symmetrical := false, max_score_swing := 100 }

/-- An example master statistics table for the final-move selection:
move 1 is the most visited. -/
noncomputable def exMoveStats : List (ℕ × MoveStats) :=
  [(0, { visits := 1, total_reward := 0, total_squared_reward := 0 }),
   (1, { visits := 3, total_reward := 0, total_squared_reward := 0 }),
   (2, { visits := 2, total_reward := 0, total_squared_reward := 0 })]

/-! Helper lemmas. -/

/-- The guarded re-deal loop is exactly take and drop. -/
theorem redeal_eq_take_drop (n : ℕ) (pool : List ℤ) :
    redeal n pool = (pool.take n, pool.drop n) := by
  induction n generalizing pool with
  | zero => simp [redeal]
  | succ n ih =>
    cases pool with
    | nil => simp [redeal]
    | cons c rest => simp [redeal, ih]

/-- In Fin 2 no index equals its opponent index. -/
theorem fin2_ne_one_sub : ∀ p : Fin 2, p ≠ 1 - p := by decide

/-- In Fin 2 an index other than the opponent of q is q itself. -/
theorem fin2_eq_of_ne_one_sub : ∀ i q : Fin 2, i ≠ 1 - q → i = q := by decide

/-- Claim C7: determinize preserves the opponent hand and deck lengths,
permutes their combined card pool, and leaves health, resource, board,
graveyard of both players, the viewing player hand, the player to act,
the turn number and the phase unchanged. The shuffle oracles are
hypothesised to permute their inputs, as random.shuffle does; the
function itself acts on a copy, never the input value. -/
theorem c7_determinize_preserves_counts_and_frame (s : GameState) (p : Fin 2)
    (shp shd : List ℤ → List ℤ)
    (hshp : ∀ l, (shp l).Perm l) (hshd : ∀ l, (shd l).Perm l) :
    ((s.determinize p shp shd).players (1 - p)).hand.length =
      ((s.players (1 - p)).hand).length ∧
    ((s.determinize p shp shd).players (1 - p)).deck.length =
      ((s.players (1 - p)).deck).length ∧
    (((s.determinize p shp shd).players (1 - p)).hand ++
        ((s.determinize p shp shd).players (1 - p)).deck).Perm
      ((s.players (1 - p)).hand ++ (s.players (1 - p)).deck) ∧
    (∀ i : Fin 2,
      ((s.determinize p shp shd).players i).health = (s.players i).health ∧
      ((s.determinize p shp shd).players i).resource = (s.players i).resource ∧
      ((s.determinize p shp shd).players i).board = (s.players i).board ∧
      ((s.determinize p shp shd).players i).graveyard = (s.players i).graveyard) ∧
    ((s.determinize p shp shd).players p).hand = (s.players p).hand ∧
    (s.determinize p shp shd).current_player_index = s.current_player_index ∧
    (s.determinize p shp shd).turn_number = s.turn_number ∧
    (s.determinize p shp shd).current_phase = s.current_phase := by
  have hne := fin2_ne_one_sub p
  have hpool := hshp ((s.players (1 - p)).hand ++ (s.players (1 - p)).deck)
  have hlen : (shp ((s.players (1 - p)).hand ++ (s.players (1 - p)).deck)).length =
      (s.players (1 - p)).hand.length + (s.players (1 - p)).deck.length := by
    rw [hpool.length_eq, List.length_append]
  refine ⟨?_, ?_, ?_, ?_, ?_, rfl, rfl, rfl⟩
  · simp only [GameState.determinize, redeal_eq_take_drop]
    rw [if_pos trivial]
    simp only [List.length_take]
    rw [min_eq_left (by omega)]
  · simp only [GameState.determinize, redeal_eq_take_drop]
    rw [if_pos trivial]
    simp only [List.length_drop]
    omega
  · simp only [GameState.determinize, redeal_eq_take_drop]
    rw [if_pos trivial]
    rw [List.take_append_drop]
    exact hpool
  · intro i
    by_cases hi : i = 1 - p
    · subst hi
      simp only [GameState.determinize]
      rw [if_pos trivial]
      exact ⟨rfl, rfl, rfl, rfl⟩
    · have hip : i = p := fin2_eq_of_ne_one_sub i p hi
      subst hip
      simp only [GameState.determinize]
      rw [if_neg hne]
      exact ⟨rfl, rfl, rfl, rfl⟩
  · simp only [GameState.determinize]
    rw [if_neg hne]

/-- Claim C7 witness: the frame theorem evaluated on a concrete state
with identity shuffles. -/
theorem c7_determinize_witness :
    ((exState.determinize 0 id id).players 1).hand.length = 2 ∧
    ((exState.determinize 0 id id).players 1).deck.length = 3 ∧
    ((exState.determinize 0 id id).players 1).health = 20 ∧
    ((exState.determinize 0 id id).players 0).hand = [4, 5] := by
  have h := c7_determinize_preserves_counts_and_frame exState 0 id id
    (fun l => List.Perm.refl l) (fun l => List.Perm.refl l)
  have e : (1 - 0 : Fin 2) = 1 := rfl
  rw [e] at h
  refine ⟨?_, ?_, ?_, ?_⟩
  · rw [h.1]
    decide
  · rw [h.2.1]
    decide
  · rw [(h.2.2.2.1 1).1]
    decide
  · rw [h.2.2.2.2.1]
    decide

/-- Claim C9 (code bug): on a terminal state get_score returns 1 when
the current player is the winner and -1 in every other case, because the
line-233 test winner-is-not-None is always true for the integer winner
code; in particular a drawn terminal state scores -1, never the midpoint
0 of the [-1,1] convention, and the return 0.0 line is unreachable. -/
theorem c9_terminal_score_values (s : GameState) (w : EvalWeights)
    (h : s.is_terminal = true) :
    s.get_score w =
      (if s.get_winner_index = (s.current_player_index : ℤ) then 1 else -1) ∧
    (s.get_winner_index = -2 → s.get_score w = -1) := by
  have h1 : s.get_score w =
      if s.get_winner_index = (s.current_player_index : ℤ) then 1 else -1 := by
    unfold GameState.get_score
    simp [h, winnerIsNotNone]
  refine ⟨h1, fun hd => ?_⟩
  rw [h1, hd, if_neg ?_]
  have h2 : (s.current_player_index : ℕ) < 2 := s.current_player_index.isLt
  omega

/-- Claim C9 witness: the concrete drawn state (both players at zero
health) is scored -1 by the code. -/
theorem c9_terminal_score_values_witness :
    exDrawState.get_score exEvalWeights = -1 ∧ exDrawState.get_winner_index = -2 :=
  ⟨(c9_terminal_score_values exDrawState exEvalWeights (by decide)).2 (by decide), by decide⟩

/-- Fold characterization of pyMaxKey: a some result is the initial
accumulator or a list element, and its key dominates every scanned
key. -/
theorem pyMaxKey_fold_spec {α : Type u} (f : α → ℚ) (l : List α) :
    ∀ (acc : Option α) (b : α),
      l.foldl (fun acc x =>
        match acc with
        | none => some x
        | some b0 => if f b0 < f x then some x else some b0) acc = some b →
      (acc = some b ∨ b ∈ l) ∧ (∀ x ∈ l, f x ≤ f b) ∧ (∀ a, acc = some a → f a ≤ f b) := by
  induction l with
  | nil =>
    intro acc b h
    simp only [List.foldl_nil] at h
    subst h
    exact ⟨Or.inl rfl, by simp, fun a ha => le_of_eq (congrArg f (Option.some.inj ha).symm)⟩
  | cons x xs ih =>
    intro acc b h
    simp only [List.foldl_cons] at h
    cases acc with
    | none =>
      have h2 := ih (some x) b h
      refine ⟨Or.inr ?_, ?_, ?_⟩
      · rcases h2.1 with h3 | h3
        · cases h3; exact List.mem_cons_self _ _
        · exact List.mem_cons_of_mem _ h3
      · intro y hy
        rcases List.mem_cons.mp hy with rfl | hy2
        · exact h2.2.2 y rfl
        · exact h2.2.1 y hy2
      · intro a ha
        cases ha
    | some a0 =>
      have hred : (match some a0 with
          | none => some x
          | some b0 => if f b0 < f x then some x else some b0) =
          if f a0 < f x then some x else some a0 := rfl
      rw [hred] at h
      by_cases hlt : f a0 < f x
      · rw [if_pos hlt] at h
        have h2 := ih (some x) b h
        refine ⟨Or.inr ?_, ?_, ?_⟩
        · rcases h2.1 with h3 | h3
          · cases h3; exact List.mem_cons_self _ _
          · exact List.mem_cons_of_mem _ h3
        · intro y hy
          rcases List.mem_cons.mp hy with rfl | hy2
          · exact h2.2.2 y rfl
          · exact h2.2.1 y hy2
        · intro a ha
          cases ha
          exact le_of_lt (lt_of_lt_of_le hlt (h2.2.2 x rfl))
      · rw [if_neg hlt] at h
        have h2 := ih (some a0) b h
        refine ⟨?_, ?_, ?_⟩
        · rcases h2.1 with h3 | h3
          · exact Or.inl h3
          · exact Or.inr (List.mem_cons_of_mem _ h3)
        · intro y hy
          rcases List.mem_cons.mp hy with rfl | hy2
          · exact le_trans (le_of_not_lt hlt) (h2.2.2 a0 rfl)
          · exact h2.2.1 y hy2
        · intro a ha
          cases ha
          exact h2.2.2 a0 rfl

/-- A some result of pyMaxKey is a list element of maximal key. -/
theorem pyMaxKey_spec {α : Type u} (f : α → ℚ) (l : List α) (b : α)
    (h : pyMaxKey l f = some b) : b ∈ l ∧ ∀ x ∈ l, f x ≤ f b := by
  have h2 := pyMaxKey_fold_spec f l none b h
  refine ⟨?_, h2.2.1⟩
  rcases h2.1 with h3 | h3
  · cases h3
  · exact h3

/-- The pyMaxKey fold started at a some accumulator stays some. -/
theorem pyMaxKey_fold_isSome {α : Type u} (f : α → ℚ) :
    ∀ (l : List α) (a : α),
      (l.foldl (fun acc x =>
        match acc with
        | none => some x
        | some b0 => if f b0 < f x then some x else some b0) (some a)).isSome = true := by
  intro l
  induction l with
  | nil => intro a; rfl
  | cons x xs ih =>
    intro a
    simp only [List.foldl_cons]
    by_cases hlt : f a < f x
    · rw [if_pos hlt]; exact ih x
    · rw [if_neg hlt]; exact ih a

/-- pyMaxKey returns a value on every non-empty list. -/
theorem pyMaxKey_isSome {α : Type u} (f : α → ℚ) (l : List α) (hl : l ≠ []) :
    (pyMaxKey l f).isSome = true := by
  cases l with
  | nil => exact absurd rfl hl
  | cons x xs =>
    unfold pyMaxKey
    simp only [List.foldl_cons]
    exact pyMaxKey_fold_isSome f xs x

/-- Claim C8: below temperature 0.01, choose_final_move ignores the
sampling oracle and returns the first move of maximal visit count in the
statistics table. -/
theorem c8_greedy_final_selection {Move : Type} (move_stats : List (Move × MoveStats))
    (temperature : ℚ) (s1 s2 : List ℝ → ℕ)
    (hne : move_stats.isEmpty = false) (ht : temperature < 1 / 100) :
    CCG_AI.choose_final_move move_stats temperature s1 =
      CCG_AI.choose_final_move move_stats temperature s2 ∧
    CCG_AI.choose_final_move move_stats temperature s1 =
      (pyMaxKey move_stats fun p => (p.2.visits : ℚ)).map Prod.fst ∧
    (CCG_AI.choose_final_move move_stats temperature s1).isSome = true ∧
    ∀ b, pyMaxKey move_stats (fun p => (p.2.visits : ℚ)) = some b →
      b ∈ move_stats ∧ ∀ q ∈ move_stats, q.2.visits ≤ b.2.visits := by
  have hg : ∀ s : List ℝ → ℕ, CCG_AI.choose_final_move move_stats temperature s =
      (pyMaxKey move_stats fun p => (p.2.visits : ℚ)).map Prod.fst := by
    intro s
    unfold CCG_AI.choose_final_move
    rw [hne]
    simp only [Bool.false_eq_true, if_false]
    rw [if_pos ht]
  have hNe : move_stats ≠ [] := by
    intro h
    rw [h] at hne
    simp at hne
  refine ⟨by rw [hg s1, hg s2], hg s1, ?_, ?_⟩
  · rw [hg s1]
    have hks := pyMaxKey_isSome (fun p : Move × MoveStats => (p.2.visits : ℚ)) move_stats hNe
    cases hmk : pyMaxKey move_stats fun p => (p.2.visits : ℚ) with
    | none => rw [hmk] at hks; simp at hks
    | some b => rfl
  · intro b hb
    have h2 := pyMaxKey_spec _ _ _ hb
    exact ⟨h2.1, fun q hq => by exact_mod_cast h2.2 q hq⟩

/-- Claim C8 witness: on a concrete table with visit counts 1, 3, 2 the
greedy branch picks the move with 3 visits, for two different samplers. -/
theorem c8_greedy_final_selection_witness :
    CCG_AI.choose_final_move exMoveStats 0 (fun _ => 0) =
      CCG_AI.choose_final_move exMoveStats 0 (fun _ => 1) ∧
    CCG_AI.choose_final_move exMoveStats 0 (fun _ => 0) =
      (pyMaxKey exMoveStats fun p => (p.2.visits : ℚ)).map Prod.fst ∧
    (CCG_AI.choose_final_move exMoveStats 0 (fun _ => 0)).isSome = true :=
  have h := c8_greedy_final_selection exMoveStats 0 (fun _ => 0) (fun _ => 1)
    (by rfl) (by norm_num)
  ⟨h.1, h.2.1, h.2.2.1⟩

/-- Claim C5 (amended): normalize_score_diff always lands in the unit
interval for a positive configured swing; the certainty-adjusted reward
stays in the unit interval for every certainty exponent at least 1 (for
exponents strictly between 0 and 1 it can leave the interval, see the
counterexample); and the MCTS playout reward and the per-node flipped
reward accumulated by backpropagation land in the unit interval. -/
theorem c5_reward_bounds :
    (∀ M my opp : ℚ, 0 < M →
      0 ≤ CCG_AI.normalize_score_diff M my opp ∧
        CCG_AI.normalize_score_diff M my opp ≤ 1) ∧
    (∀ r e : ℝ, 0 ≤ r → r ≤ 1 → 1 ≤ e →
      0 ≤ CCG_AI.adjustReward r e ∧ CCG_AI.adjustReward r e ≤ 1) ∧
    (∀ (fs : GameState) (sp : Fin 2),
      0 ≤ MCTS_AI.rewardForSearchPlayer fs sp ∧
        MCTS_AI.rewardForSearchPlayer fs sp ≤ 1) ∧
    (∀ (sp : Fin 2) (r : ℚ) (all : List ℕ) (n : MCTS_AI.BPNode ℕ), 0 ≤ r → r ≤ 1 →
      0 ≤ (MCTS_AI.bpUpdateNode sp r all n).wins - n.wins ∧
        (MCTS_AI.bpUpdateNode sp r all n).wins - n.wins ≤ 1) := by
  refine ⟨?_, ?_, ?_, ?_⟩
  · intro M my opp hM
    simp only [CCG_AI.normalize_score_diff]
    have h1 : -M ≤ max (-M) (min M (my - opp)) := le_max_left _ _
    have h2 : max (-M) (min M (my - opp)) ≤ M := max_le (by linarith) (min_le_left _ _)
    constructor
    · apply div_nonneg (by linarith) (by linarith)
    · rw [div_le_one (by linarith)]
      linarith
  · intro r e hr0 hr1 he
    have habs : |r - 1 / 2| ≤ 1 / 2 := abs_le.mpr ⟨by linarith, by linarith⟩
    have hpow0 : 0 ≤ |r - 1 / 2| ^ e := Real.rpow_nonneg (abs_nonneg _) e
    have hpow : |r - 1 / 2| ^ e ≤ 1 / 2 := by
      rcases lt_or_eq_of_le (abs_nonneg (r - 1 / 2)) with h0 | h0
      · calc |r - 1 / 2| ^ e ≤ |r - 1 / 2| ^ (1 : ℝ) :=
            Real.rpow_le_rpow_of_exponent_ge h0 (le_trans habs (by norm_num)) he
          _ = |r - 1 / 2| := Real.rpow_one _
          _ ≤ 1 / 2 := habs
      · rw [← h0, Real.zero_rpow (ne_of_gt (by linarith : (0 : ℝ) < e))]
        norm_num
    simp only [CCG_AI.adjustReward]
    by_cases hlt : r - 1 / 2 < 0
    · rw [if_pos hlt]
      constructor <;> linarith
    · rw [if_neg hlt]
      constructor <;> linarith
  · intro fs sp
    simp only [MCTS_AI.rewardForSearchPlayer]
    split_ifs <;> norm_num
  · intro sp r all n h0 h1
    simp only [MCTS_AI.bpUpdateNode]
    by_cases hp : n.game_state.current_player_index = sp
    · rw [if_pos hp]
      constructor <;> simp <;> linarith
    · rw [if_neg hp]
      constructor <;> simp <;> linarith

/-- Claim C5 witness: the bounds theorem evaluated on concrete scores, a
concrete exponent of 2, and a concrete winning playout. -/
theorem c5_reward_bounds_witness :
    (0 ≤ CCG_AI.normalize_score_diff 100 30 (-10) ∧
      CCG_AI.normalize_score_diff 100 30 (-10) ≤ 1) ∧
    (0 ≤ CCG_AI.adjustReward (3 / 4) 2 ∧ CCG_AI.adjustReward (3 / 4) 2 ≤ 1) ∧
    (0 ≤ MCTS_AI.rewardForSearchPlayer exWinState 0 ∧
      MCTS_AI.rewardForSearchPlayer exWinState 0 ≤ 1) :=
  ⟨c5_reward_bounds.1 100 30 (-10) (by norm_num),
   c5_reward_bounds.2.1 (3 / 4) 2 (by norm_num) (by norm_num) (by norm_num),
   c5_reward_bounds.2.2.1 exWinState 0⟩

/-- Claim C5 counterexample: with the positive certainty exponent one
half, the certainty-adjusted reward of a full-swing evaluation (which
normalize_score_diff maps to 1) exceeds 1, leaving the unit interval. -/
theorem c5_counterexample :
    1 < CCG_AI.adjustReward ((CCG_AI.normalize_score_diff 100 200 0 : ℚ) : ℝ) (1 / 2) := by
  have h1 : CCG_AI.normalize_score_diff 100 200 0 = 1 := by
    norm_num [CCG_AI.normalize_score_diff]
  rw [h1, Rat.cast_one]
  simp only [CCG_AI.adjustReward]
  have hc : ¬((1 : ℝ) - 1 / 2 < 0) := by norm_num
  rw [if_neg hc]
  have habs : |(1 : ℝ) - 1 / 2| = 1 / 2 := by
    rw [abs_of_nonneg] <;> norm_num
  rw [habs]
  have h2 : ((1 : ℝ) / 2) ^ (1 : ℝ) < ((1 : ℝ) / 2) ^ ((1 : ℝ) / 2) :=
    Real.rpow_lt_rpow_of_exponent_gt (by norm_num) (by norm_num) (by norm_num)
  rw [Real.rpow_one] at h2
  linarith

/-- Claim C6: backpropagating a playout whose reward for the search
player is 1 bumps every path node visit count by exactly 1, and bumps
the accumulated reward by exactly 1 at nodes where the search player is
to act and by exactly 0 at nodes where the opponent is to act. -/
theorem c6_perspective_flip {Move : Type} [DecidableEq Move] (fs : GameState) (sp : Fin 2)
    (mt ms : List Move) (path : List (MCTS_AI.BPNode Move)) (i : ℕ)
    (n : MCTS_AI.BPNode Move)
    (hr : MCTS_AI.rewardForSearchPlayer fs sp = 1)
    (hi : path.get? i = some n) :
    ((MCTS_AI.backpropagate fs sp mt ms path).get? i).map (fun m => m.visits) =
      some (n.visits + 1) ∧
    ((MCTS_AI.backpropagate fs sp mt ms path).get? i).map (fun m => m.wins) =
      some (n.wins + (if n.game_state.current_player_index = sp then 1 else 0)) := by
  unfold MCTS_AI.backpropagate
  rw [hr]
  rw [List.get?_map, hi]
  constructor
  · simp [MCTS_AI.bpUpdateNode]
  · simp only [Option.map_some', MCTS_AI.bpUpdateNode, Option.some.injEq]
    split_ifs <;> norm_num

/-- Claim C6 witness: a concrete two-node path under a playout won by
player 0; the node where player 1 acts gains reward 0, both nodes gain
one visit. -/
theorem c6_perspective_flip_witness :
    ((MCTS_AI.backpropagate exWinState 0 [3] [4] [exBPNode0, exBPNode1]).get? 1).map
        (fun m => m.visits) = some 5 ∧
    ((MCTS_AI.backpropagate exWinState 0 [3] [4] [exBPNode0, exBPNode1]).get? 1).map
        (fun m => m.wins) = some 1 := by
  have h := c6_perspective_flip exWinState 0 [3] [4] [exBPNode0, exBPNode1] 1 exBPNode1
    (by decide) (by rfl)
  refine ⟨h.1, ?_⟩
  rw [h.2]
  simp [exBPNode1, exStateP1, exState]

/-- The guarded RAVE update folded over empty dictionaries leaves them
empty: the guard never fires because the key is never present. -/
theorem raveUpdate_fold_empty {Move : Type} [DecidableEq Move] (cr : ℚ) :
    ∀ moves : List Move,
      moves.foldl (fun acc move => MCTS_AI.raveUpdate acc.1 acc.2 move cr)
        (([] : List (Move × ℕ)), ([] : List (Move × ℚ))) = ([], []) := by
  intro moves
  induction moves with
  | nil => rfl
  | cons m rest ih => simpa [MCTS_AI.raveUpdate] using ih

/-- Claim C4 (code bug): every MCTS node is created with empty RAVE
dictionaries and the guarded update of backpropagate only bumps keys
already present, so backpropagation leaves every empty RAVE table empty:
no move ever receives RAVE credit, at any ancestor, for any playout. -/
theorem c4_rave_tables_never_updated {Move : Type} [DecidableEq Move]
    (fs : GameState) (sp : Fin 2) (mt ms : List Move)
    (path : List (MCTS_AI.BPNode Move))
    (hempty : ∀ n ∈ path, n.rave_visits = [] ∧ n.rave_wins = []) :
    (∀ n1 ∈ MCTS_AI.backpropagate fs sp mt ms path,
      n1.rave_visits = [] ∧ n1.rave_wins = []) ∧
    (∀ (g : Game Move) (ushuf : GameState → List Move → List Move) (st : GameState),
      (MCTS_AI.mkNode g ushuf st).rave_visits = [] ∧
        (MCTS_AI.mkNode g ushuf st).rave_wins = []) := by
  constructor
  · intro n1 hn1
    unfold MCTS_AI.backpropagate at hn1
    rcases List.mem_map.mp hn1 with ⟨n, hn, rfl⟩
    have he := hempty n hn
    simp only [MCTS_AI.bpUpdateNode, he.1, he.2, raveUpdate_fold_empty]
    exact ⟨trivial, trivial⟩
  · intro g u st
    exact ⟨rfl, rfl⟩

/-- Claim C4 witness: a concrete root node whose child move 3 appears in
the playout move set still has an empty RAVE table after the
backpropagation, and a freshly constructed node starts empty. -/
theorem c4_rave_tables_never_updated_witness :
    (MCTS_AI.bpUpdateNode (0 : Fin 2) (MCTS_AI.rewardForSearchPlayer exWinState 0)
        ((([3] : List ℕ) ++ [4]).dedup) exBPNode0).rave_visits = [] ∧
    (MCTS_AI.mkNode exGame2 (fun _ l => l) exState).rave_visits = [] := by
  have h := c4_rave_tables_never_updated exWinState (0 : Fin 2) ([3] : List ℕ) [4]
    [exBPNode0] (by
      intro n hn
      rw [List.mem_singleton] at hn
      subst hn
      exact ⟨rfl, rfl⟩)
  exact ⟨(h.1 _ (List.mem_singleton.mpr rfl)).1, (h.2 exGame2 (fun _ l => l) exState).1⟩

/-- A selection step with a winning score installs the scanned move. -/
theorem selectStep_pos {Move : Type} (cw : ℝ) (total : ℕ) (acc : Option Move × EReal)
    (p : Move × MoveStats) (h : acc.2 < CCG_AI.ucbScore cw total p.2) :
    CCG_AI.selectStep cw total acc p = (some p.1, CCG_AI.ucbScore cw total p.2) := by
  simp only [CCG_AI.selectStep]
  rw [if_pos h]

/-- A selection step with a losing or tied score keeps the incumbent. -/
theorem selectStep_neg {Move : Type} (cw : ℝ) (total : ℕ) (acc : Option Move × EReal)
    (p : Move × MoveStats) (h : ¬ acc.2 < CCG_AI.ucbScore cw total p.2) :
    CCG_AI.selectStep cw total acc p = acc := by
  simp only [CCG_AI.selectStep]
  rw [if_neg h]

/-- Once the selection fold carries a move it keeps carrying one. -/
theorem selectFold_keeps_some {Move : Type} (cw : ℝ) (total : ℕ) :
    ∀ (l : List (Move × MoveStats)) (acc : Option Move × EReal), acc.1.isSome = true →
      ((l.foldl (CCG_AI.selectStep cw total) acc).1).isSome = true := by
  intro l
  induction l with
  | nil => intro acc h; exact h
  | cons p rest ih =>
    intro acc h
    simp only [List.foldl_cons]
    apply ih
    by_cases hlt : acc.2 < CCG_AI.ucbScore cw total p.2
    · rw [selectStep_pos cw total acc p hlt]
      rfl
    · rw [selectStep_neg cw total acc p hlt]
      exact h

/-- No UCB score is minus infinity: an unvisited entry scores plus
infinity and a visited entry scores a real number. -/
theorem ucbScore_ne_bot (cw : ℝ) (total : ℕ) (stats : MoveStats) :
    (⊥ : EReal) < CCG_AI.ucbScore cw total stats := by
  unfold CCG_AI.ucbScore
  split
  · exact bot_lt_top
  · exact EReal.bot_lt_coe _

/-- The selection scan over a non-empty master table returns a move. -/
theorem selectBestMove_isSome {Move : Type} (cw : ℝ) (total : ℕ)
    (master : List (Move × MoveStats)) (hm : master ≠ []) :
    (CCG_AI.selectBestMove cw total master).isSome = true := by
  cases master with
  | nil => exact absurd rfl hm
  | cons p rest =>
    unfold CCG_AI.selectBestMove
    simp only [List.foldl_cons]
    apply selectFold_keeps_some
    rw [selectStep_pos cw total _ p (ucbScore_ne_bot cw total p.2)]
    rfl

/-- Whenever the budgets let the search loop of CCG_AI.find_best_move
run one iteration over a non-empty master table, the first probe dies at
the line-231 evaluation step with the missing-argument TypeError, and
the loop propagates that error. -/
theorem ccgSearchLoop_first_iter_errors {Move : Type} [DecidableEq Move]
    (g : Game Move) (opts : CCGOptions) (o : CCGOracles Move) (s : GameState)
    (t : ℕ) (master : List (Move × MoveStats)) (w : Option GameState)
    (hev : evalLimitReached opts.evaluation_limit 0 = false)
    (hm : master ≠ []) :
    CCG_AI.ccgSearchLoop g opts o s (t + 1) 0 master w = .error CCG_AI.scoreArityErr := by
  obtain ⟨mv, hmv⟩ := Option.isSome_iff_exists.mp
    (selectBestMove_isSome opts.exploration_weight 0 master hm)
  simp only [CCG_AI.ccgSearchLoop, hev, Bool.false_eq_true, if_false, Nat.zero_mod,
    if_pos trivial, hmv]
  rfl

/-- Claim C1: the evaluation step of every probe — the line-231 call of
get_score with no eval_weights argument, unpacked as a pair — always
raises, and therefore find_best_move itself propagates the
missing-argument TypeError on every input with at least two legal moves
whenever the blunder roll does not fire and the time and evaluation
budgets admit one loop iteration: no probe ever completes. -/
theorem c1_probe_evaluation_always_errors {Move : Type} [DecidableEq Move]
    (g : Game Move) (opts : CCGOptions) (o : CCGOracles Move) (s : GameState)
    (h2 : 2 ≤ (g.legalMoves s).length)
    (hnb : ¬ o.blunderRoll < opts.blunder_chance)
    (ht : 1 ≤ o.timeIters)
    (hev : evalLimitReached opts.evaluation_limit 0 = false) :
    (∀ st : GameState, CCG_AI.ccgEvalStep st = .error CCG_AI.scoreArityErr) ∧
    CCG_AI.find_best_move g opts o s = .error CCG_AI.scoreArityErr := by
  refine ⟨fun st => rfl, ?_⟩
  have hlegal_ne : (g.legalMoves s).isEmpty = false := by
    cases hL : g.legalMoves s with
    | nil => rw [hL] at h2; simp at h2
    | cons a l => rfl
  have hlen1 : ¬ (g.legalMoves s).length = 1 := by omega
  have hmaster : CCG_AI.initMaster (g.legalMoves s) ≠ [] := by
    unfold CCG_AI.initMaster
    cases hL : g.legalMoves s with
    | nil => rw [hL] at h2; simp at h2
    | cons a l => simp
  obtain ⟨t, ht2⟩ : ∃ t, o.timeIters = t + 1 := ⟨o.timeIters - 1, by omega⟩
  unfold CCG_AI.find_best_move
  simp only [hlegal_ne, Bool.false_eq_true, if_false]
  rw [if_neg hlen1, if_neg hnb, ht2,
    ccgSearchLoop_first_iter_errors g opts o s t _ none hev hmaster]

/-- Claim C1 witness: on a concrete two-move game with the default
no-blunder options and a clock allowing one iteration, find_best_move
raises the missing-argument TypeError, and the evaluation step raises it
on a concrete state. -/
theorem c1_probe_evaluation_always_errors_witness :
    CCG_AI.find_best_move exGame2 exOptions exOracles exState =
      .error CCG_AI.scoreArityErr ∧
    CCG_AI.ccgEvalStep exState = .error CCG_AI.scoreArityErr :=
  have h := c1_probe_evaluation_always_errors exGame2 exOptions exOracles exState
    (by decide) (by decide) (by decide) (by decide)
  ⟨h.2, h.1 exState⟩

/-- Claim C2: with zero legal moves both drivers return none with count
0; with exactly one legal move both return that move with count 1,
before any budget, blunder or search logic runs. -/
theorem c2_forced_move_short_circuit {Move : Type} [DecidableEq Move]
    (g : Game Move) (opts : CCGOptions) (oc : CCGOracles Move)
    (om : MCTS_AI.MCTSOracles Move) (s : GameState) :
    (g.legalMoves s = [] →
      CCG_AI.find_best_move g opts oc s = .ok (none, 0) ∧
      MCTS_AI.find_best_move g om s = .ok (none, 0)) ∧
    (∀ m : Move, g.legalMoves s = [m] →
      CCG_AI.find_best_move g opts oc s = .ok (some m, 1) ∧
      MCTS_AI.find_best_move g om s = .ok (some m, 1)) := by
  constructor
  · intro h
    constructor
    · unfold CCG_AI.find_best_move
      rw [h]
      rfl
    · unfold MCTS_AI.find_best_move
      rw [h]
      rfl
  · intro m h
    constructor
    · unfold CCG_AI.find_best_move
      rw [h]
      rfl
    · unfold MCTS_AI.find_best_move
      rw [h]
      rfl

/-- Claim C2 witness: the short circuits evaluated on concrete zero-move
and one-move games, for both drivers. -/
theorem c2_forced_move_short_circuit_witness :
    (CCG_AI.find_best_move exGame0 exOptions exOracles exState = .ok (none, 0) ∧
      MCTS_AI.find_best_move exGame0 exMCTSOracles exState = .ok (none, 0)) ∧
    (CCG_AI.find_best_move exGame1 exOptions exOracles exState = .ok (some 7, 1) ∧
      MCTS_AI.find_best_move exGame1 exMCTSOracles exState = .ok (some 7, 1)) :=
  ⟨(c2_forced_move_short_circuit exGame0 exOptions exOracles exMCTSOracles exState).1 rfl,
   (c2_forced_move_short_circuit exGame1 exOptions exOracles exMCTSOracles exState).2 7 rfl⟩

/-- Claim C3 (amended): the blunder check runs exactly once, before the
search loop: whenever at least two moves are legal and the roll fires,
find_best_move immediately returns a uniformly random legal move with
evaluation count 0, no search statistic ever accumulated. -/
theorem c3_blunder_before_search {Move : Type} [DecidableEq Move]
    (g : Game Move) (opts : CCGOptions) (o : CCGOracles Move) (s : GameState)
    (h2 : 2 ≤ (g.legalMoves s).length)
    (hb : o.blunderRoll < opts.blunder_chance) :
    CCG_AI.find_best_move g opts o s =
      .ok (pyChoiceL (g.legalMoves s) o.blunderIdx, 0) ∧
    (∀ m, pyChoiceL (g.legalMoves s) o.blunderIdx = some m → m ∈ g.legalMoves s) := by
  constructor
  · have hlegal_ne : (g.legalMoves s).isEmpty = false := by
      cases hL : g.legalMoves s with
      | nil => rw [hL] at h2; simp at h2
      | cons a l => rfl
    unfold CCG_AI.find_best_move
    simp only [hlegal_ne, Bool.false_eq_true, if_false]
    rw [if_neg (by omega), if_pos hb]
  · intro m hm
    exact List.get?_mem hm

/-- Claim C3 witness: with blunder probability 1 on a concrete two-move
game the driver returns move 0 with count 0. -/
theorem c3_blunder_before_search_witness :
    CCG_AI.find_best_move exGame2 exOptionsBlunder exOracles exState = .ok (some 0, 0) ∧
    (0 : ℕ) ∈ exGame2.legalMoves exState :=
  have h := c3_blunder_before_search exGame2 exOptionsBlunder exOracles exState
    (by decide) (by decide)
  ⟨h.1, h.2 0 rfl⟩

/-- The spec-ordered variant necessarily dies in its search loop under
the same budget conditions as claim C1, whatever the blunder roll. -/
theorem find_best_move_blunder_after_errors {Move : Type} [DecidableEq Move]
    (g : Game Move) (opts : CCGOptions) (o : CCGOracles Move) (s : GameState)
    (h2 : 2 ≤ (g.legalMoves s).length)
    (ht : 1 ≤ o.timeIters)
    (hev : evalLimitReached opts.evaluation_limit 0 = false) :
    CCG_AI.find_best_move_blunder_after g opts o s = .error CCG_AI.scoreArityErr := by
  have hlegal_ne : (g.legalMoves s).isEmpty = false := by
    cases hL : g.legalMoves s with
    | nil => rw [hL] at h2; simp at h2
    | cons a l => rfl
  have hlen1 : ¬ (g.legalMoves s).length = 1 := by omega
  have hmaster : CCG_AI.initMaster (g.legalMoves s) ≠ [] := by
    unfold CCG_AI.initMaster
    cases hL : g.legalMoves s with
    | nil => rw [hL] at h2; simp at h2
    | cons a l => simp
  obtain ⟨t, ht2⟩ : ∃ t, o.timeIters = t + 1 := ⟨o.timeIters - 1, by omega⟩
  unfold CCG_AI.find_best_move_blunder_after
  simp only [hlegal_ne, Bool.false_eq_true, if_false]
  rw [if_neg hlen1, ht2,
    ccgSearchLoop_first_iter_errors g opts o s t _ none hev hmaster]

/-- Claim C3 counterexample: on a concrete two-move input whose budgets
admit a probe and whose blunder roll fires, the source function returns
normally with evaluation count 0 — no search ran before the override —
while the variant that applies the blunder check after the search loop,
as the claim describes, dies in the search loop (claim C1): the blunder
check of the code cannot be the post-search check the claim asserts. -/
theorem c3_counterexample :
    CCG_AI.find_best_move exGame2 exOptionsBlunder exOracles exState = .ok (some 0, 0) ∧
    CCG_AI.find_best_move_blunder_after exGame2 exOptionsBlunder exOracles exState =
      .error CCG_AI.scoreArityErr :=
  ⟨rfl, find_best_move_blunder_after_errors exGame2 exOptionsBlunder exOracles exState
    (by decide) (by decide) (by decide)⟩

/-- determinize never changes a player health total. -/
theorem determinize_players_health (s : GameState) (p : Fin 2)
    (shp shd : List ℤ → List ℤ) (i : Fin 2) :
    ((s.determinize p shp shd).players i).health = (s.players i).health := by
  by_cases hi : i = 1 - p
  · subst hi
    simp only [GameState.determinize]
    rw [if_pos trivial]
  · have hip := fin2_eq_of_ne_one_sub i p hi
    subst hip
    simp only [GameState.determinize]
    rw [if_neg (fin2_ne_one_sub i)]

/-- determinize preserves the winner decision, which reads only the two
health totals. -/
theorem determinize_get_winner_index (s : GameState) (p : Fin 2)
    (shp shd : List ℤ → List ℤ) :
    (s.determinize p shp shd).get_winner_index = s.get_winner_index := by
  unfold GameState.get_winner_index
  simp only [determinize_players_health]

/-- determinize preserves terminality. -/
theorem determinize_is_terminal (s : GameState) (p : Fin 2)
    (shp shd : List ℤ → List ℤ) :
    (s.determinize p shp shd).is_terminal = s.is_terminal := by
  unfold GameState.is_terminal
  rw [determinize_get_winner_index]

namespace MCTS_AI

/-- The backpropagation update never changes the wrapped state. -/
theorem bpUpdate_game_state {Move : Type} [DecidableEq Move] (sp : Fin 2) (r : ℚ)
    (all : List Move) (t : MTree Move) :
    (t.bpUpdate sp r all).game_state = t.game_state := by
  cases t
  rfl

/-- The backpropagation update bumps the visit count by exactly one. -/
theorem bpUpdate_visits {Move : Type} [DecidableEq Move] (sp : Fin 2) (r : ℚ)
    (all : List Move) (t : MTree Move) :
    (t.bpUpdate sp r all).visits = t.visits + 1 := by
  cases t
  rfl

/-- The backpropagation update never changes the children list. -/
theorem bpUpdate_children {Move : Type} [DecidableEq Move] (sp : Fin 2) (r : ℚ)
    (all : List Move) (t : MTree Move) :
    (t.bpUpdate sp r all).children = t.children := by
  cases t
  rfl

/-- The backpropagation update never changes the untried actions. -/
theorem bpUpdate_untried {Move : Type} [DecidableEq Move] (sp : Fin 2) (r : ℚ)
    (all : List Move) (t : MTree Move) :
    (t.bpUpdate sp r all).untried_actions = t.untried_actions := by
  cases t
  rfl

/-- A value produced by getLast? is a member of the list. -/
theorem mem_of_getLast?_eq {α : Type u} {l : List α} {a : α}
    (h : l.getLast? = some a) : a ∈ l :=
  List.mem_of_mem_getLast? (by rw [h]; rfl)

/-- Shape facts of one successful playout that need no recursion: the
root state is unchanged, the root visit count grows by one, the untried
actions only shrink, and every child move was a child move or an untried
action before. -/
theorem probe_ok_basic {Move : Type} [DecidableEq Move] (g : Game Move)
    (ushuf : GameState → List Move → List Move) (rands : PlayoutRands)
    (sp : Fin 2) (depth : ℕ) (ma : List Move) (t : MTree Move) (out : ProbeOut Move)
    (h : probe g ushuf rands sp depth ma t = .ok out) :
    out.tree.game_state = t.game_state ∧
    out.tree.visits = t.visits + 1 ∧
    (∀ m ∈ out.tree.untried_actions, m ∈ t.untried_actions) ∧
    (∀ m ∈ rootChildMoves out.tree, m ∈ rootChildMoves t ∨ m ∈ t.untried_actions) := by
  cases t with
  | node st w v rw rv un ch =>
    unfold probe at h
    split at h
    · -- terminal leaf: the node itself is updated, children untouched
      injection h with h2
      subst h2
      dsimp only
      refine ⟨?_, ?_, ?_, ?_⟩
      · rw [bpUpdate_game_state]
      · rw [bpUpdate_visits]
      · intro m hm
        rwa [bpUpdate_untried] at hm
      · intro m hm
        unfold rootChildMoves at hm ⊢
        rw [bpUpdate_children] at hm
        exact Or.inl hm
    · -- non-terminal: expansion or descent
      split at h
      · -- expansion of the popped untried action
        rename_i action hlast
        injection h with h2
        subst h2
        dsimp only
        refine ⟨?_, ?_, ?_, ?_⟩
        · rw [bpUpdate_game_state]
          rfl
        · rw [bpUpdate_visits]
          rfl
        · intro m hm
          rw [bpUpdate_untried] at hm
          exact (List.dropLast_sublist un).subset hm
        · intro m hm
          unfold rootChildMoves at hm ⊢
          rw [bpUpdate_children] at hm
          simp only [MTree.children, List.map_append, List.mem_append] at hm
          rcases hm with hm | hm
          · exact Or.inl hm
          · simp only [List.map_cons, List.map_nil, List.mem_singleton] at hm
            subst hm
            exact Or.inr (mem_of_getLast?_eq hlast)
      · -- descent into the chosen child
        split at h
        · cases h
        · rename_i i hbc
          split at h
          · cases h
          · rename_i pair hch
            split at h
            · cases h
            · rename_i out0 hpr
              injection h with h2
              subst h2
              dsimp only
              refine ⟨?_, ?_, ?_, ?_⟩
              · rw [bpUpdate_game_state]
                rfl
              · rw [bpUpdate_visits]
                rfl
              · intro m hm
                rwa [bpUpdate_untried] at hm
              · intro m hm
                unfold rootChildMoves at hm ⊢
                rw [bpUpdate_children] at hm
                simp only [MTree.children] at hm
                rcases List.mem_map.mp hm with ⟨c, hc, rfl⟩
                rcases List.mem_or_eq_of_mem_set hc with hc2 | hc2
                · exact Or.inl (List.mem_map_of_mem _ hc2)
                · subst hc2
                  have hpm : pair ∈ ch := List.get?_mem hch
                  have h3 : pair.1 ∈ ch.map Prod.fst := List.mem_map_of_mem Prod.fst hpm
                  exact Or.inl h3

end MCTS_AI

namespace MCTS_AI

/-- Replacing the entry at a valid index by a pair whose tree has one
more visit raises the child visit total by exactly one. -/
theorem visitSum_set {Move : Type} :
    ∀ (ch : List (Move × MTree Move)) (i : ℕ) (p : Move × MTree Move) (x : MTree Move),
      ch.get? i = some p → x.visits = p.2.visits + 1 →
      ((ch.set i (p.1, x)).map fun c => c.2.visits).sum =
        ((ch.map fun c => c.2.visits).sum) + 1 := by
  intro ch
  induction ch with
  | nil =>
    intro i p x h hx
    simp at h
  | cons c rest ih =>
    intro i p x h hx
    cases i with
    | zero =>
      simp only [List.get?] at h
      injection h with h2
      subst h2
      simp only [List.set, List.map_cons, List.sum_cons]
      omega
    | succ n =>
      simp only [List.get?] at h
      simp only [List.set, List.map_cons, List.sum_cons]
      rw [ih n p x h hx]
      omega

/-- A freshly constructed node carries zero visits. -/
theorem mkNode_visits {Move : Type} (g : Game Move)
    (u : GameState → List Move → List Move) (st : GameState) :
    (mkNode g u st).visits = 0 := rfl

/-- A freshly constructed node wraps the given state. -/
theorem mkNode_game_state {Move : Type} (g : Game Move)
    (u : GameState → List Move → List Move) (st : GameState) :
    (mkNode g u st).game_state = st := rfl

/-- A freshly constructed node has no children. -/
theorem mkNode_children {Move : Type} (g : Game Move)
    (u : GameState → List Move → List Move) (st : GameState) :
    (mkNode g u st).children = [] := rfl

/-- A freshly constructed node holds the shuffled legal moves as its
untried actions. -/
theorem mkNode_untried {Move : Type} (g : Game Move)
    (u : GameState → List Move → List Move) (st : GameState) :
    (mkNode g u st).untried_actions = u st (g.legalMoves st) := rfl

/-- A successful playout from a non-terminal subtree root adds exactly
one to the total child visit count of that root: the selection path
passes through exactly one child. -/
theorem probe_ok_child_visit_sum {Move : Type} [DecidableEq Move] (g : Game Move)
    (ushuf : GameState → List Move → List Move) (rands : PlayoutRands)
    (sp : Fin 2) (depth : ℕ) (ma : List Move) (t : MTree Move) (out : ProbeOut Move)
    (h : probe g ushuf rands sp depth ma t = .ok out)
    (hterm : t.game_state.is_terminal = false) :
    rootChildVisitSum out.tree = rootChildVisitSum t + 1 := by
  cases t with
  | node st w v rw rv un ch =>
    have hterm2 : st.is_terminal = false := hterm
    unfold probe at h
    split at h
    · rename_i hT
      rw [hterm2] at hT
      cases hT
    · split at h
      · rename_i action hlast
        injection h with h2
        subst h2
        dsimp only
        unfold rootChildVisitSum
        rw [bpUpdate_children]
        simp only [MTree.children, List.map_append, List.sum_append, List.map_cons,
          List.map_nil, List.sum_cons, List.sum_nil, bpUpdate_visits, mkNode_visits]
        omega
      · split at h
        · cases h
        · rename_i i hbc
          split at h
          · cases h
          · rename_i pair hch
            split at h
            · cases h
            · rename_i out0 hpr
              injection h with h2
              subst h2
              dsimp only
              unfold rootChildVisitSum
              rw [bpUpdate_children]
              simp only [MTree.children]
              have hv := (probe_ok_basic g ushuf rands sp (depth + 1)
                (ma ++ [pair.1]) pair.2 out0 hpr).2.1
              exact visitSum_set ch i pair out0.tree hch hv

/-- Running the inner solver loop for a number of iterations on a
non-terminal root bumps the playout total and the root child visit
total by exactly that number, keeps the root state, and only moves
untried root actions into root children. -/
theorem solverLoop_ok {Move : Type} [DecidableEq Move] (g : Game Move)
    (o : MCTSOracles Move) (sp : Fin 2) (k : ℕ) :
    ∀ (iters : ℕ) (root : MTree Move) (total : ℕ) (root1 : MTree Move) (total1 : ℕ),
      root.game_state.is_terminal = false →
      solverLoop g o sp k iters root total = .ok (root1, total1) →
      total1 = total + iters ∧
      root1.game_state = root.game_state ∧
      rootChildVisitSum root1 = rootChildVisitSum root + iters ∧
      (∀ m ∈ rootChildMoves root1, m ∈ rootChildMoves root ∨ m ∈ root.untried_actions) ∧
      (∀ m ∈ root1.untried_actions, m ∈ root.untried_actions) := by
  intro iters
  induction iters with
  | zero =>
    intro root total root1 total1 hterm h
    unfold solverLoop at h
    injection h with h2
    injection h2 with h3 h4
    subst h3
    subst h4
    exact ⟨by omega, rfl, by omega, fun m hm => Or.inl hm, fun m hm => hm⟩
  | succ n ih =>
    intro root total root1 total1 hterm h
    unfold solverLoop at h
    split at h
    · cases h
    · rename_i out hpr
      have hb := probe_ok_basic g o.ushuf (o.rands k n) sp 0 [] root out hpr
      have hsum := probe_ok_child_visit_sum g o.ushuf (o.rands k n) sp 0 [] root out hpr hterm
      have hterm3 : out.tree.game_state.is_terminal = false := by
        rw [hb.1]
        exact hterm
      have hrec := ih out.tree (total + 1) root1 total1 hterm3 h
      have hrs := hrec.2.2.1
      refine ⟨by omega, by rw [hrec.2.1, hb.1], by omega, ?_, ?_⟩
      · intro m hm
        rcases hrec.2.2.2.1 m hm with h1 | h1
        · rcases hb.2.2.2 m h1 with h2 | h2
          · exact Or.inl h2
          · exact Or.inr h2
        · exact Or.inr (hb.2.2.1 m h1)
      · intro m hm
        exact hb.2.2.1 m (hrec.2.2.2.2 m hm)

/-- A lookup succeeds exactly when the key is among the stored keys. -/
theorem lookup_isSome_iff {κ : Type u} {β : Type v} [DecidableEq κ]
    (l : List (κ × β)) (k : κ) :
    (l.lookup k).isSome = true ↔ k ∈ l.map Prod.fst := by
  induction l with
  | nil => simp [List.lookup]
  | cons p rest ih =>
    cases p with
    | mk k0 v =>
      simp only [List.lookup, List.map_cons, List.mem_cons]
      by_cases hk : k = k0
      · subst hk
        simp
      · have hbeq : (k == k0) = false := beq_eq_false_iff_ne.mpr hk
        rw [hbeq]
        rw [ih]
        constructor
        · exact Or.inr
        · intro h2
          rcases h2 with h2 | h2
          · exact absurd h2 hk
          · exact h2

/-- assocUpdate never changes the key list. -/
theorem assocUpdate_keys {κ : Type u} {β : Type v} [DecidableEq κ]
    (l : List (κ × β)) (k : κ) (f : β → β) :
    (assocUpdate l k f).map Prod.fst = l.map Prod.fst := by
  induction l with
  | nil => rfl
  | cons p rest ih =>
    cases p with
    | mk k0 v =>
      unfold assocUpdate
      by_cases h : k0 = k
      · rw [if_pos h]
        simp
      · rw [if_neg h]
        simp only [List.map_cons, ih]

/-- The visit total of a master table, entry by entry. -/
theorem masterVisitSum_cons {Move : Type} (p : Move × MStats)
    (l : List (Move × MStats)) :
    masterVisitSum (p :: l) = p.2.visits + masterVisitSum l := by
  simp [masterVisitSum]

/-- An assocUpdate that adds dv visits to its entry adds dv to the
visit total, provided the key is present. -/
theorem masterVisitSum_assocUpdate {Move : Type} [DecidableEq Move]
    (f : MStats → MStats) (dv : ℕ) (hf : ∀ st, (f st).visits = st.visits + dv) :
    ∀ (master : List (Move × MStats)) (k : Move),
      (master.lookup k).isSome = true →
      masterVisitSum (assocUpdate master k f) = masterVisitSum master + dv := by
  intro master
  induction master with
  | nil =>
    intro k h
    simp [List.lookup] at h
  | cons p rest ih =>
    intro k h
    cases p with
    | mk k0 v =>
      unfold assocUpdate
      by_cases hk : k0 = k
      · rw [if_pos hk]
        rw [masterVisitSum_cons, masterVisitSum_cons]
        dsimp only
        rw [hf]
        omega
      · rw [if_neg hk]
        rw [masterVisitSum_cons, masterVisitSum_cons]
        have h2 : (rest.lookup k).isSome = true := by
          have hbeq : (k == k0) = false := beq_eq_false_iff_ne.mpr (fun he => hk he.symm)
          simpa [List.lookup, hbeq] using h
        rw [ih k h2]
        omega

/-- Folding the aggregation step over children whose moves are all
master keys adds the children visit total to the master visit total and
keeps the key list. -/
theorem aggregate_sum {Move : Type} [DecidableEq Move] :
    ∀ (children : List (Move × MTree Move)) (master : List (Move × MStats)),
      (∀ c ∈ children, c.1 ∈ master.map Prod.fst) →
      masterVisitSum (aggregate master children) =
        masterVisitSum master + ((children.map fun c => c.2.visits).sum) ∧
      (aggregate master children).map Prod.fst = master.map Prod.fst := by
  intro children
  induction children with
  | nil =>
    intro master h
    exact ⟨by simp [aggregate], rfl⟩
  | cons c rest ih =>
    intro master h
    have hc : (master.lookup c.1).isSome = true :=
      (lookup_isSome_iff master c.1).mpr (h c (List.mem_cons_self c rest))
    have hstep : aggregate master (c :: rest) =
        aggregate (assocUpdate master c.1 fun st =>
          { wins := st.wins + c.2.wins, visits := st.visits + c.2.visits }) rest := by
      unfold aggregate
      simp only [List.foldl_cons]
      rw [if_pos hc]
    rw [hstep]
    have hkeys := assocUpdate_keys master c.1 fun st =>
      { visits := st.visits + c.2.visits, wins := st.wins + c.2.wins }
    have hmem2 : ∀ d ∈ rest,
        d.1 ∈ (assocUpdate master c.1 fun st =>
          ({ wins := st.wins + c.2.wins, visits := st.visits + c.2.visits } : MStats)).map
            Prod.fst := by
      intro d hd
      rw [assocUpdate_keys]
      exact h d (List.mem_cons_of_mem _ hd)
    have hrec := ih _ hmem2
    have hupd := masterVisitSum_assocUpdate
      (fun st => { wins := st.wins + c.2.wins, visits := st.visits + c.2.visits })
      c.2.visits (fun st => rfl) master c.1 hc
    refine ⟨?_, by rw [hrec.2, assocUpdate_keys]⟩
    rw [hrec.1, hupd]
    simp only [List.map_cons, List.sum_cons]
    omega

end MCTS_AI

/-- Across the whole determinization loop the growth of the master visit
total equals the growth of the playout total, and the key list stays the
legal move list, given a live root whose determinizations only produce
legal root moves. -/
theorem worldLoop_ok {Move : Type} [DecidableEq Move] (g : Game Move)
    (o : MCTS_AI.MCTSOracles Move) (s : GameState)
    (hterm : s.is_terminal = false)
    (hush : ∀ (st : GameState) (l : List Move), (o.ushuf st l).Perm l)
    (hsub : ∀ k : ℕ, ∀ m ∈ g.legalMoves (s.determinize s.current_player_index
      (o.shufflePool k) (o.shuffleDeck k)), m ∈ g.legalMoves s) :
    ∀ (worlds k : ℕ) (master : List (Move × MCTS_AI.MStats)) (total : ℕ)
      (master1 : List (Move × MCTS_AI.MStats)) (total1 : ℕ),
      master.map Prod.fst = g.legalMoves s →
      MCTS_AI.worldLoop g o s worlds k master total = .ok (master1, total1) →
      MCTS_AI.masterVisitSum master1 + total = MCTS_AI.masterVisitSum master + total1 ∧
      master1.map Prod.fst = g.legalMoves s := by
  intro worlds
  induction worlds with
  | zero =>
    intro k master total master1 total1 hkeys h
    unfold MCTS_AI.worldLoop at h
    injection h with h2
    injection h2 with h3 h4
    subst h3
    subst h4
    exact ⟨by omega, hkeys⟩
  | succ n ih =>
    intro k master total master1 total1 hkeys h
    unfold MCTS_AI.worldLoop at h
    dsimp only at h
    split at h
    · cases h
    · rename_i rt tm heq
      have hwterm : (s.determinize s.current_player_index (o.shufflePool k)
          (o.shuffleDeck k)).is_terminal = false := by
        rw [determinize_is_terminal]
        exact hterm
      have hroot : (MCTS_AI.mkNode g o.ushuf (s.determinize s.current_player_index
          (o.shufflePool k) (o.shuffleDeck k))).game_state.is_terminal = false := by
        rw [MCTS_AI.mkNode_game_state]
        exact hwterm
      have hs := MCTS_AI.solverLoop_ok g o s.current_player_index k SOLVER_ITERATIONS
        (MCTS_AI.mkNode g o.ushuf (s.determinize s.current_player_index (o.shufflePool k)
          (o.shuffleDeck k))) total rt tm hroot heq
      have hmem : ∀ c ∈ rt.children, c.1 ∈ master.map Prod.fst := by
        intro c hc
        rw [hkeys]
        have hmv : c.1 ∈ MCTS_AI.rootChildMoves rt := List.mem_map_of_mem Prod.fst hc
        rcases hs.2.2.2.1 c.1 hmv with h1 | h1
        · simp [MCTS_AI.rootChildMoves, MCTS_AI.mkNode_children] at h1
        · rw [MCTS_AI.mkNode_untried] at h1
          exact hsub k c.1 ((hush _ _).subset h1)
      have hagg := MCTS_AI.aggregate_sum rt.children master hmem
      have hrec := ih (k + 1) _ tm master1 total1 (by rw [hagg.2, hkeys]) h
      refine ⟨?_, hrec.2⟩
      have hb : ((rt.children.map fun c => c.2.visits).sum) =
        MCTS_AI.rootChildVisitSum rt := rfl
      have h0 : MCTS_AI.rootChildVisitSum (MCTS_AI.mkNode g o.ushuf
        (s.determinize s.current_player_index (o.shufflePool k) (o.shuffleDeck k))) = 0 := rfl
      have hs1 := hs.1
      have hs3 := hs.2.2.1
      have ha1 := hagg.1
      have hr1 := hrec.1
      omega

/-- The evaluation step of a probe is the missing-argument TypeError on
every state. -/
theorem ccgEvalStep_eq (st : GameState) :
    CCG_AI.ccgEvalStep st = .error CCG_AI.scoreArityErr := rfl

/-- The probe-driver loop can only return normally by breaking before
any probe, because every probe dies at its evaluation step: a normal
return carries the master table and the count it started with. -/
theorem ccgSearchLoop_ok_frame {Move : Type} [DecidableEq Move] (g : Game Move)
    (opts : CCGOptions) (o : CCGOracles Move) (s : GameState) :
    ∀ (fuel count : ℕ) (master : List (Move × MoveStats)) (w : Option GameState)
      (m1 : List (Move × MoveStats)) (c1 : ℕ),
      CCG_AI.ccgSearchLoop g opts o s fuel count master w = .ok (m1, c1) →
      m1 = master ∧ c1 = count := by
  intro fuel
  induction fuel with
  | zero =>
    intro count master w m1 c1 h
    unfold CCG_AI.ccgSearchLoop at h
    injection h with h2
    injection h2 with h3 h4
    exact ⟨h3.symm, h4.symm⟩
  | succ n ih =>
    intro count master w m1 c1 h
    unfold CCG_AI.ccgSearchLoop at h
    split at h
    · injection h with h2
      injection h2 with h3 h4
      exact ⟨h3.symm, h4.symm⟩
    · rcases hsel : CCG_AI.selectBestMove opts.exploration_weight count master with _ | mv
      · simp only [hsel] at h
        cases h
      · simp only [hsel] at h
        by_cases hw : count % opts.probes_per_world = 0
        · simp only [if_pos hw, ccgEvalStep_eq] at h
          cases h
        · simp only [if_neg hw, ccgEvalStep_eq] at h
          cases w with
          | none => simp at h
          | some wst => simp at h

/-- The initial master table of the probe driver has visit total 0. -/
theorem initMaster_visit_sum {Move : Type} (l : List Move) :
    CCG_AI.masterVisitSum (CCG_AI.initMaster l) = 0 := by
  simp only [CCG_AI.masterVisitSum, CCG_AI.initMaster, List.map_map]
  apply List.sum_eq_zero
  intro x hx
  rcases List.mem_map.mp hx with ⟨y, _, rfl⟩
  rfl

/-- Claim C10: when either search loop hands control back normally, the
visit counts summed over the master statistics table equal exactly the
evaluation count returned with it. For the probe driver this follows
from the loop frame: each completed probe would bump exactly one root
move and the counter together, and since no probe completes (claim C1)
both stay at their initial values. For the determinization driver each
playout passes through exactly one solver-root child, the per-world
children aggregate into master keys (the determinizer preserves legal
root moves), and the totals advance in lockstep. -/
theorem c10_master_visit_sum_equals_count {Move : Type} [DecidableEq Move]
    (gc : Game Move) (opts : CCGOptions) (oc : CCGOracles Move) (sc : GameState)
    (fuel count1 : ℕ) (m1 : List (Move × MoveStats))
    (hccg : CCG_AI.ccgSearchLoop gc opts oc sc fuel 0
      (CCG_AI.initMaster (gc.legalMoves sc)) none = .ok (m1, count1))
    (gm : Game Move) (om : MCTS_AI.MCTSOracles Move) (sm : GameState)
    (hterm : sm.is_terminal = false)
    (hush : ∀ (st : GameState) (l : List Move), (om.ushuf st l).Perm l)
    (hsub : ∀ k : ℕ, ∀ m ∈ gm.legalMoves (sm.determinize sm.current_player_index
      (om.shufflePool k) (om.shuffleDeck k)), m ∈ gm.legalMoves sm)
    (m2 : List (Move × MCTS_AI.MStats)) (total2 : ℕ)
    (hmcts : MCTS_AI.worldLoop gm om sm om.numWorlds 0
      (gm.legalMoves sm |>.map fun mv => (mv, ({ wins := 0, visits := 0 } : MCTS_AI.MStats)))
      0 = .ok (m2, total2)) :
    CCG_AI.masterVisitSum m1 = count1 ∧ MCTS_AI.masterVisitSum m2 = total2 := by
  constructor
  · obtain ⟨hm, hc⟩ := ccgSearchLoop_ok_frame gc opts oc sc fuel 0
      (CCG_AI.initMaster (gc.legalMoves sc)) none m1 count1 hccg
    rw [hm, hc, initMaster_visit_sum]
  · have hkeys : ((gm.legalMoves sm).map fun mv =>
        (mv, ({ wins := 0, visits := 0 } : MCTS_AI.MStats))).map Prod.fst =
        gm.legalMoves sm := by
      rw [List.map_map]
      exact List.map_id _
    have h := worldLoop_ok gm om sm hterm hush hsub om.numWorlds 0 _ 0 m2 total2 hkeys hmcts
    have hz : MCTS_AI.masterVisitSum ((gm.legalMoves sm).map fun mv =>
        (mv, ({ wins := 0, visits := 0 } : MCTS_AI.MStats))) = 0 := by
      simp only [MCTS_AI.masterVisitSum, List.map_map]
      apply List.sum_eq_zero
      intro x hx
      rcases List.mem_map.mp hx with ⟨y, _, rfl⟩
      rfl
    omega

/-- Claim C10 witness: the invariant instantiated at concrete runs where
the clock budget expires at once in both drivers: both sums and both
counts are 0. -/
theorem c10_master_visit_sum_equals_count_witness :
    CCG_AI.masterVisitSum (CCG_AI.initMaster (exGame2.legalMoves exState)) = 0 ∧
    MCTS_AI.masterVisitSum ((exGame2.legalMoves exState).map fun mv =>
      (mv, ({ wins := 0, visits := 0 } : MCTS_AI.MStats))) = 0 :=
  c10_master_visit_sum_equals_count exGame2 exOptions exOracles exState 0 0
    (CCG_AI.initMaster (exGame2.legalMoves exState)) rfl
    exGame2 exMCTSOracles exState (by decide) (fun st l => List.Perm.refl l)
    (fun _ m h => h)
    ((exGame2.legalMoves exState).map fun mv =>
      (mv, ({ wins := 0, visits := 0 } : MCTS_AI.MStats))) 0 rfl
